import Mathlib

/-!
# Scroll-list column headers (indra/llui/llscrolllistcolumn.cpp)

A shallow embedding of the column model `LLScrollListColumn` and of the header
widget `LLScrollColumnHeader`, followed by theorems about resize negotiation,
resize-handle enabling, edge snapping and construction from a record.

Conventions of the embedding.

* `S32` values are mathematical integers (`Int`).  Signed overflow is undefined
  in C++ and pixel widths stay far away from the 32-bit bounds.
* `F32` values are exact rationals (`ℚ`).
* A column owns its header (`mHeader`), and the header's back pointer `mColumn`
  is that owning column; a method of the header therefore receives the owning
  column as an argument.
* The parent list keeps its columns in an array of nullable pointers
  (`mColumnsIndexed`).  A column pointer is a position in that array.
* The parent list control is not part of this file.  Calls made on it that
  change the parent (`updateStaticColumnWidth`, `dirtyColumns`,
  `updateColumns`) are recorded, in order, in the trace `mCalls`.
-/

namespace SingularityViewer

/-- The constant `MIN_COLUMN_WIDTH` of the source file. -/
def MIN_COLUMN_WIDTH : Int := 20

/-- Modelled from the spec: the helper `llmin` of the host toolkit. -/
def llmin (a b : Int) : Int := if a < b then a else b

/-- Modelled from the spec: the helper `llmax` of the host toolkit. -/
def llmax (a b : Int) : Int := if a > b then a else b

/-- Modelled from the spec: the helper `llabs` of the host toolkit. -/
def llabs (a : Int) : Int := if a > 0 then a else -a

/-- Modelled from the spec: the helper `llclamp` of the host toolkit. -/
def llclamp (a minval maxval : Int) : Int :=
  if a < minval then minval else if a > maxval then maxval else a

/-- Modelled from the spec: the rectangle type of the host toolkit. -/
structure LLRect where
  mLeft : Int
  mTop : Int
  mRight : Int
  mBottom : Int
  deriving DecidableEq, Repr

/-- Width of a rectangle, `mRight - mLeft`. -/
def LLRect.getWidth (r : LLRect) : Int := r.mRight - r.mLeft

/-- Modelled from the spec: a screen coordinate pair (used as a drag direction). -/
structure LLCoordGL where
  mX : Int
  mY : Int
  deriving DecidableEq, Repr

/-- Modelled from the spec: which edge of a view is being dragged. -/
inductive ESnapEdge where
  | SNAP_LEFT
  | SNAP_TOP
  | SNAP_RIGHT
  | SNAP_BOTTOM
  deriving DecidableEq, Repr

/-- Modelled from the spec: what a dragged edge may snap to. -/
inductive ESnapType where
  | SNAP_PARENT
  | SNAP_SIBLINGS
  | SNAP_PARENT_AND_SIBLINGS
  deriving DecidableEq, Repr

/-- Sort direction of a column. -/
inductive ESortDirection where
  | DESCENDING
  | ASCENDING
  deriving DecidableEq, Repr

/-- Modelled from the spec: horizontal alignment code `LLFontGL::LEFT`. -/
def HAlign_LEFT : Int := 0

/-- Modelled from the spec: horizontal alignment code `LLFontGL::HCENTER`. -/
def HAlign_HCENTER : Int := 2

/-- State of a header widget: the view rectangle, the snap rectangle returned by
`getSnapRect()`, the visibility flag of the view, the resizable-element flag,
the enabled flag of the embedded resize bar and the image overlay of the
button base. -/
structure LLScrollColumnHeader where
  mRect : LLRect
  mSnapRect : LLRect
  mVisible : Bool
  mHasResizableElement : Bool
  mResizeBarEnabled : Bool
  mImageOverlay : Option String
  deriving DecidableEq, Repr

/-- The column model. -/
structure LLScrollListColumn where
  mName : String
  mSortingColumn : String
  mSortDirection : ESortDirection
  mLabel : String
  mWidth : Int
  mRelWidth : ℚ
  mDynamicWidth : Bool
  mMaxContentWidth : Int
  mIndex : Int
  mHeader : Option LLScrollColumnHeader
  mFontAlignment : Int
  deriving DecidableEq, Repr

/-- A call made on the parent list control that changes the parent.  The column
argument of `updateStaticColumnWidth` is the column as it is when the call is
made. -/
inductive ParentCall where
  | updateStaticColumnWidth (col : LLScrollListColumn) (new_width : Int)
  | dirtyColumns
  | updateColumns
  deriving DecidableEq, Repr

/-- Modelled from the spec: the parent list control, reduced to what the column
code asks of it (column lookup by index, column count, sort key and direction,
item-list content rectangle, column padding) and the trace of calls made on it. -/
structure LLScrollListCtrl where
  mColumnsIndexed : List (Option LLScrollListColumn)
  mColumnPadding : Int
  mItemListRectWidth : Int
  mSortColumnName : String
  mSorted : Bool
  mSortAscending : Bool
  mCalls : List ParentCall
  deriving DecidableEq, Repr

/-- Modelled from the spec: column count of the parent list. -/
def LLScrollListCtrl.getNumColumns (ctrl : LLScrollListCtrl) : Int :=
  (ctrl.mColumnsIndexed.length : Int)

/-- Modelled from the spec: column lookup by index of the parent list; a null
pointer (`none`) outside the array or where the array holds a null. -/
def LLScrollListCtrl.getColumn (ctrl : LLScrollListCtrl) (index : Int) :
    Option LLScrollListColumn :=
  if index < 0 then none else (ctrl.mColumnsIndexed[index.toNat]?).join

/-- Writing through a column pointer: the column stored at `index` becomes `c`. -/
def LLScrollListCtrl.putColumn (ctrl : LLScrollListCtrl) (index : Int)
    (c : LLScrollListColumn) : LLScrollListCtrl :=
  if index < 0 then ctrl
  else { ctrl with mColumnsIndexed := ctrl.mColumnsIndexed.set index.toNat (some c) }

/-- Recording calls made on the parent list. -/
def LLScrollListCtrl.record (ctrl : LLScrollListCtrl) (calls : List ParentCall) :
    LLScrollListCtrl :=
  { ctrl with mCalls := ctrl.mCalls ++ calls }

/-- The accessor `LLScrollListColumn::getWidth`. -/
def LLScrollListColumn.getWidth (self : LLScrollListColumn) : Int := self.mWidth

/-- The method `LLScrollListColumn::setWidth`: the new column state and the calls
made on the parent list. -/
def LLScrollListColumn.setWidth (self : LLScrollListColumn) (width : Int) :
    LLScrollListColumn × List ParentCall :=
  let calls :=
    if !self.mDynamicWidth && decide (self.mRelWidth ≤ 0) then
      [ParentCall.updateStaticColumnWidth self width]
    else []
  ({ self with mWidth := width }, calls)

/-- The method `LLScrollColumnHeader::canResize`. -/
def LLScrollColumnHeader.canResize (self : LLScrollColumnHeader)
    (mColumn : LLScrollListColumn) : Bool :=
  self.mVisible && (self.mHasResizableElement || mColumn.mDynamicWidth)

/-- The test `columnp->mHeader && columnp->mHeader->canResize()`. -/
def LLScrollListColumn.headerCanResize (columnp : LLScrollListColumn) : Bool :=
  match columnp.mHeader with
  | some hdr => hdr.canResize columnp
  | none => false

/-- The method `LLScrollColumnHeader::enableResizeBar`. -/
def LLScrollColumnHeader.enableResizeBar (self : LLScrollColumnHeader)
    (enable : Bool) : LLScrollColumnHeader :=
  { self with mResizeBarEnabled := enable }

/-- The accessor `getSnapRect` of the header view. -/
def LLScrollColumnHeader.getSnapRect (self : LLScrollColumnHeader) : LLRect :=
  self.mSnapRect

/-- The accessor `getRect` of the header view. -/
def LLScrollColumnHeader.getRect (self : LLScrollColumnHeader) : LLRect :=
  self.mRect

/-- The method `LLScrollColumnHeader::draw`, up to the delegation to the button
base: the header with its image overlay chosen. -/
def LLScrollColumnHeader.draw (self : LLScrollColumnHeader)
    (mColumn : LLScrollListColumn) (ctrl : LLScrollListCtrl) : LLScrollColumnHeader :=
  let sort_column := ctrl.mSortColumnName
  let draw_arrow := !mColumn.mLabel.isEmpty
      && ctrl.mSorted
      && (sort_column == mColumn.mSortingColumn || sort_column == mColumn.mName)
  let is_ascending := ctrl.mSortAscending
  if draw_arrow then
    { self with mImageOverlay := some (if is_ascending then "up_arrow.tga" else "down_arrow.tga") }
  else
    { self with mImageOverlay := none }

/-- What a call of `findSnapEdge` leaves behind: the value of the reference
parameter `new_edge_val`, and two observations of the run, the values assigned
to `snap_delta` in order and the number of passes through the body of the
`while` loop. -/
structure SnapResult where
  new_edge_val : Int
  snap_deltas : List Int
  visited : Nat
  deriving DecidableEq, Repr

/-- The `while (next_column)` loop of `findSnapEdge`.  The loop follows stored
indices, so it is given fuel; `none` means the fuel ran out. -/
def findSnapEdgeLoop (ctrl : LLScrollListCtrl) (mouse_dir : LLCoordGL) (threshold : Int)
    (snap_rect : LLRect) (new_edge_val : Int) (deltas : List Int) :
    Nat → Nat → Option LLScrollListColumn → Option SnapResult
  | _, visited, none => some ⟨new_edge_val, deltas, visited⟩
  | 0, _, some _ => none
  | fuel + 1, visited, some next_column =>
    match next_column.mHeader with
    | some hdr =>
      let snap_delta :=
        (hdr.getSnapRect.mRight - next_column.mMaxContentWidth) - snap_rect.mRight
      if llabs snap_delta ≤ threshold ∧ mouse_dir.mX * snap_delta > 0 then
        some ⟨snap_rect.mRight + snap_delta, deltas ++ [snap_delta], visited + 1⟩
      else
        some ⟨new_edge_val, deltas ++ [snap_delta], visited + 1⟩
    | none =>
      findSnapEdgeLoop ctrl mouse_dir threshold snap_rect new_edge_val deltas
        fuel (visited + 1) (ctrl.getColumn (next_column.mIndex + 1))

/-- The method `LLScrollColumnHeader::findSnapEdge`.  The `llassert` on
`snap_edge` is compiled out of release builds and `snap_type` and `padding` are
not read by the body. -/
def LLScrollColumnHeader.findSnapEdge (fuel : Nat) (self : LLScrollColumnHeader)
    (mColumn : LLScrollListColumn) (ctrl : LLScrollListCtrl) (new_edge_val : Int)
    (mouse_dir : LLCoordGL) (_snap_edge : ESnapEdge) (_snap_type : ESnapType)
    (threshold : Int) (_padding : Int) : Option SnapResult :=
  let threshold := llmin threshold 10
  let snap_rect := self.getSnapRect
  let snap_delta := mColumn.mMaxContentWidth - snap_rect.getWidth
  if llabs snap_delta ≤ threshold ∧ mouse_dir.mX * snap_delta > 0 then
    some ⟨snap_rect.mRight + snap_delta, [snap_delta], 0⟩
  else
    findSnapEdgeLoop ctrl mouse_dir threshold snap_rect new_edge_val [snap_delta]
      fuel 0 (ctrl.getColumn (mColumn.mIndex + 1))

/-- One pass through the body of the sibling loop of `handleReshape`: the column
`*columnp` after the pass, the calls made on the parent list, the value of
`remaining_width` after the pass and whether the pass ended in `break`. -/
structure SiblingPass where
  column : LLScrollListColumn
  calls : List ParentCall
  remaining_width : Int
  done : Bool
  deriving DecidableEq, Repr

/-- The statements `columnp->setWidth(w)` followed by the update of the
relative width of `*columnp` when it is set. -/
def setWidthAndRelWidth (columnp : LLScrollListColumn) (w : Int) (listWidth : Int) :
    LLScrollListColumn × List ParentCall :=
  let r := columnp.setWidth w
  if r.1.mRelWidth > 0 then
    ({ r.1 with mRelWidth := (r.1.getWidth : ℚ) / (listWidth : ℚ) }, r.2)
  else r

/-- Body of the sibling loop of `handleReshape` for a non-null `columnp`;
`listWidth` is `getItemListRect().getWidth()` of the parent list. -/
def reshapeSibling (delta_width : Int) (listWidth : Int) (columnp : LLScrollListColumn)
    (remaining_width : Int) : SiblingPass :=
  if columnp.headerCanResize then
    -- how many pixels in width can this column afford to give up?
    let resize_buffer_amt := llmax 0 (columnp.getWidth - MIN_COLUMN_WIDTH)
    if delta_width < 0 then
      -- user shrinking column, need to add width to other columns
      if columnp.getWidth > 0 then
        let r := setWidthAndRelWidth columnp (columnp.getWidth + remaining_width) listWidth
        ⟨r.1, r.2, remaining_width, true⟩
      else ⟨columnp, [], remaining_width, false⟩
    else
      -- user growing column, need to take width from other columns
      let remaining_width := remaining_width + resize_buffer_amt
      let r :=
        if columnp.getWidth > 0 then
          setWidthAndRelWidth columnp
            (columnp.getWidth - llmin (columnp.getWidth - MIN_COLUMN_WIDTH) delta_width)
            listWidth
        else (columnp, [])
      ⟨r.1, r.2, remaining_width, decide (remaining_width ≥ 0)⟩
  else ⟨columnp, [], remaining_width, false⟩

/-- The sibling loop of `handleReshape`: `fuel` is the number of values the loop
variable `col` still takes below `getNumColumns()`.  Returns the parent list
with its columns and the final `remaining_width`. -/
def handleReshapeLoop (delta_width : Int) :
    Nat → Int → LLScrollListCtrl → Int → LLScrollListCtrl × Int
  | 0, _, ctrl, remaining_width => (ctrl, remaining_width)
  | fuel + 1, col, ctrl, remaining_width =>
    match ctrl.getColumn col with
    | none => handleReshapeLoop delta_width fuel (col + 1) ctrl remaining_width
    | some columnp =>
      let pass := reshapeSibling delta_width ctrl.mItemListRectWidth columnp remaining_width
      let ctrl := (ctrl.putColumn col pass.column).record pass.calls
      if pass.done then (ctrl, pass.remaining_width)
      else handleReshapeLoop delta_width fuel (col + 1) ctrl pass.remaining_width

/-- The method `LLScrollColumnHeader::handleReshape` of the header of the column
stored at position `self` of the parent list.  The result is the parent list
with its columns after the call; `none` when there is no such header. -/
def handleReshape (ctrl : LLScrollListCtrl) (self : Nat) (new_rect : LLRect)
    (_by_user : Bool) : Option LLScrollListCtrl :=
  match ctrl.getColumn self with
  | none => none
  | some mColumn =>
    match mColumn.mHeader with
    | none => none
    | some hdr =>
      let new_width := new_rect.getWidth
      let delta_width := new_width - hdr.getRect.getWidth
      if delta_width ≠ 0 then
        let remaining_width := -delta_width
        let start := mColumn.mIndex + 1
        let r := handleReshapeLoop delta_width (ctrl.getNumColumns - start).toNat start ctrl
          remaining_width
        let ctrl := r.1
        let remaining_width := r.2
        -- clamp resize amount to maximum that can be absorbed by other columns
        let delta_width :=
          if delta_width > 0 then delta_width + llmin remaining_width 0 else delta_width
        -- propagate constrained delta_width to new width for this column
        let new_width := hdr.getRect.getWidth + delta_width - ctrl.mColumnPadding
        match ctrl.getColumn self with
        | none => none
        | some mColumn =>
          -- use requested width
          let w := mColumn.setWidth new_width
          -- update proportional spacing
          let mColumn :=
            if w.1.mRelWidth > 0 then
              { w.1 with mRelWidth := (new_width : ℚ) / (ctrl.mItemListRectWidth : ℚ) }
            else w.1
          some (((ctrl.putColumn self mColumn).record w.2).record
            [ParentCall.dirtyColumns, ParentCall.updateColumns])
      else some ctrl

/-- First loop of `updateResizeBars`: counts the resizable columns.  `none` when
a null column pointer is dereferenced. -/
def countResizableLoop :
    Nat → Int → LLScrollListCtrl → Int → Option Int
  | 0, _, _, num_resizable_columns => some num_resizable_columns
  | fuel + 1, col, ctrl, num_resizable_columns =>
    match ctrl.getColumn col with
    | none => none
    | some columnp =>
      countResizableLoop fuel (col + 1) ctrl
        (if columnp.headerCanResize then num_resizable_columns + 1
         else num_resizable_columns)

/-- Second loop of `updateResizeBars`: enables or disables each resize handle.
Returns `none` when a null column pointer is dereferenced. -/
def enableResizeBarsLoop (num_resizable_columns : Int) :
    Nat → Int → LLScrollListCtrl → Int → Option LLScrollListCtrl
  | 0, _, ctrl, _ => some ctrl
  | fuel + 1, col, ctrl, num_resizers_enabled =>
    match ctrl.getColumn col with
    | none => none
    | some columnp =>
      match columnp.mHeader with
      | none => enableResizeBarsLoop num_resizable_columns fuel (col + 1) ctrl
          num_resizers_enabled
      | some hdr =>
        let enable := decide (num_resizable_columns ≥ 2)
          && decide (num_resizers_enabled < num_resizable_columns - 1)
          && hdr.canResize columnp
        let ctrl := ctrl.putColumn col
          { columnp with mHeader := some (hdr.enableResizeBar enable) }
        enableResizeBarsLoop num_resizable_columns fuel (col + 1) ctrl
          (if enable then num_resizers_enabled + 1 else num_resizers_enabled)

/-- The method `LLScrollColumnHeader::updateResizeBars`, which reads only the
parent list of the header it is called on. -/
def updateResizeBars (ctrl : LLScrollListCtrl) : Option LLScrollListCtrl :=
  match countResizableLoop ctrl.getNumColumns.toNat 0 ctrl 0 with
  | none => none
  | some num_resizable_columns =>
    enableResizeBarsLoop num_resizable_columns ctrl.getNumColumns.toNat 0 ctrl 0

/-- Modelled from the spec: the declarative column configuration record, one
optional field per recognised key, each already converted to the type the
constructor asks for. -/
structure LLSD where
  name : Option String
  label : Option String
  sort : Option String
  sort_ascending : Option Bool
  relwidth : Option ℚ
  width : Option Int
  dynamicwidth : Option Bool
  halign : Option Int
  deriving DecidableEq, Repr

/-- The constructor `LLScrollListColumn(const LLSD&, LLScrollListCtrl*)`: the new
column and the calls made on the parent list.  Members are initialised in
declaration order, `mName` before `mSortingColumn`. -/
def LLScrollListColumn.fromLLSD (sd : LLSD) : LLScrollListColumn × List ParentCall :=
  let mName := sd.name.getD ""
  let c0 : LLScrollListColumn :=
    { mWidth := 0
      mIndex := -1
      mName := mName
      mLabel := sd.label.getD ""
      mHeader := none
      mMaxContentWidth := 0
      mDynamicWidth := sd.dynamicwidth.isSome && sd.dynamicwidth.getD false
      mRelWidth := -1
      mFontAlignment := HAlign_LEFT
      mSortingColumn := if sd.sort.isSome then sd.sort.getD "" else mName
      mSortDirection :=
        if sd.sort_ascending.isSome then
          (if sd.sort_ascending.getD false then ESortDirection.ASCENDING
           else ESortDirection.DESCENDING)
        else ESortDirection.ASCENDING }
  let r : LLScrollListColumn × List ParentCall :=
    if sd.relwidth.isSome && decide (sd.relwidth.getD 0 > 0) then
      let c1 := { c0 with mRelWidth := sd.relwidth.getD 0 }
      let c2 := if c1.mRelWidth > 1 then { c1 with mRelWidth := 1 } else c1
      ({ c2 with mDynamicWidth := false }, [])
    else if !c0.mDynamicWidth then
      c0.setWidth (sd.width.getD 0)
    else (c0, [])
  let c3 :=
    if sd.halign.isSome then
      { r.1 with mFontAlignment := llclamp (sd.halign.getD 0) HAlign_LEFT HAlign_HCENTER }
    else r.1
  (c3, r.2)

/-! ## Quantities used to state the properties -/

/-- Width a resizable column can give up, `max(0, width - MIN_COLUMN_WIDTH)`; a
column that is absent or not resizable gives up nothing. -/
def shrinkBuffer : Option LLScrollListColumn → Int
  | some c => if c.headerCanResize then llmax 0 (c.getWidth - MIN_COLUMN_WIDTH) else 0
  | none => 0

/-- Sum of the shrink buffers of a run of columns. -/
def shrinkBufferSum (cols : List (Option LLScrollListColumn)) : Int :=
  (cols.map shrinkBuffer).sum

/-- Width of a column slot, zero for a null slot. -/
def slotWidth : Option LLScrollListColumn → Int
  | some c => c.getWidth
  | none => 0

/-- Sum of the widths of a run of columns. -/
def totalWidth (cols : List (Option LLScrollListColumn)) : Int :=
  (cols.map slotWidth).sum

/-- The sibling loop of `handleReshape` read as a walk along the run of columns
it ranges over: the run after the loop and the final `remaining_width`. -/
def reshapeWalk (delta_width listWidth : Int) :
    List (Option LLScrollListColumn) → Int → List (Option LLScrollListColumn) × Int
  | [], remaining_width => ([], remaining_width)
  | none :: rest, remaining_width =>
    (none :: (reshapeWalk delta_width listWidth rest remaining_width).1,
      (reshapeWalk delta_width listWidth rest remaining_width).2)
  | some c :: rest, remaining_width =>
    if (reshapeSibling delta_width listWidth c remaining_width).done then
      (some (reshapeSibling delta_width listWidth c remaining_width).column :: rest,
        (reshapeSibling delta_width listWidth c remaining_width).remaining_width)
    else
      (some (reshapeSibling delta_width listWidth c remaining_width).column ::
          (reshapeWalk delta_width listWidth rest
            (reshapeSibling delta_width listWidth c remaining_width).remaining_width).1,
        (reshapeWalk delta_width listWidth rest
            (reshapeSibling delta_width listWidth c remaining_width).remaining_width).2)

/-- The constrained `delta_width` of `handleReshape` after the sibling loop. -/
def clampedDelta (delta_width remaining_width : Int) : Int :=
  if delta_width > 0 then delta_width + llmin remaining_width 0 else delta_width

/-- Columns of the parent list after the sibling loop of `handleReshape` started
at index `start` with `remaining_width = -delta_width`. -/
def afterSiblings (ctrl : LLScrollListCtrl) (start : Int) (delta_width : Int) :
    List (Option LLScrollListColumn) :=
  ctrl.mColumnsIndexed.take start.toNat ++
    (reshapeWalk delta_width ctrl.mItemListRectWidth
      (ctrl.mColumnsIndexed.drop start.toNat) (-delta_width)).1

/-- The value of `remaining_width` after the sibling loop of `handleReshape`. -/
def remainingAfterSiblings (ctrl : LLScrollListCtrl) (start : Int) (delta_width : Int) : Int :=
  (reshapeWalk delta_width ctrl.mItemListRectWidth
      (ctrl.mColumnsIndexed.drop start.toNat) (-delta_width)).2

/-- Whether a column slot holds a column whose header is present and can resize. -/
def slotResizable : Option LLScrollListColumn → Bool
  | some c => c.headerCanResize
  | none => false

/-- Whether a column slot holds a column whose header has its resize handle
enabled. -/
def slotEnabled : Option LLScrollListColumn → Bool
  | some c =>
    match c.mHeader with
    | some hdr => hdr.mResizeBarEnabled
    | none => false
  | none => false

/-- Number of resizable columns in a run of columns. -/
def resizableCount (cols : List (Option LLScrollListColumn)) : Nat :=
  cols.countP slotResizable

/-- Number of enabled resize handles in a run of columns. -/
def enabledCount (cols : List (Option LLScrollListColumn)) : Nat :=
  cols.countP slotEnabled

/-- The second loop of `updateResizeBars` read as a walk along the run of
columns it ranges over; `none` when a null column pointer is dereferenced. -/
def enableWalk (num_resizable_columns : Int) :
    List (Option LLScrollListColumn) → Int → Option (List (Option LLScrollListColumn))
  | [], _ => some []
  | none :: _, _ => none
  | some columnp :: rest, num_resizers_enabled =>
    match columnp.mHeader with
    | none =>
      (enableWalk num_resizable_columns rest num_resizers_enabled).map
        (fun l => some columnp :: l)
    | some hdr =>
      (enableWalk num_resizable_columns rest
        (if (decide (num_resizable_columns ≥ 2)
              && decide (num_resizers_enabled < num_resizable_columns - 1)
              && hdr.canResize columnp) = true
          then num_resizers_enabled + 1 else num_resizers_enabled)).map
        (fun l => some { columnp with mHeader := some (hdr.enableResizeBar
          (decide (num_resizable_columns ≥ 2)
            && decide (num_resizers_enabled < num_resizable_columns - 1)
            && hdr.canResize columnp)) } :: l)

/-! ## Sample data -/

/-- A visible header whose rectangle spans `width` pixels from the origin. -/
def sampleHeader (width : Int) (resizable : Bool) : LLScrollColumnHeader :=
  { mRect := ⟨0, 20, width, 0⟩
    mSnapRect := ⟨0, 20, width, 0⟩
    mVisible := true
    mHasResizableElement := resizable
    mResizeBarEnabled := false
    mImageOverlay := none }

/-- A column with a header as wide as the column. -/
def sampleColumn (name : String) (index width : Int) (relWidth : ℚ) (resizable : Bool) :
    LLScrollListColumn :=
  { mName := name
    mSortingColumn := name
    mSortDirection := ESortDirection.ASCENDING
    mLabel := name
    mWidth := width
    mRelWidth := relWidth
    mDynamicWidth := false
    mMaxContentWidth := 0
    mIndex := index
    mHeader := some (sampleHeader width resizable)
    mFontAlignment := HAlign_LEFT }

/-- A parent list of content width 500 and padding 0 over the given columns. -/
def sampleList (cols : List (Option LLScrollListColumn)) : LLScrollListCtrl :=
  { mColumnsIndexed := cols
    mColumnPadding := 0
    mItemListRectWidth := 500
    mSortColumnName := ""
    mSorted := false
    mSortAscending := true
    mCalls := [] }

/-- The scenario of the specification: column A of width 200 with a relative
width, column B of width 280, both resizable. -/
def scenarioList : LLScrollListCtrl :=
  sampleList [some (sampleColumn "A" 0 200 (2 / 5) true),
    some (sampleColumn "B" 1 280 (-1) true)]

/-- Three resizable columns A = 200, B = 50, C = 25 without relative widths. -/
def growList : LLScrollListCtrl :=
  sampleList [some (sampleColumn "A" 0 200 (-1) true),
    some (sampleColumn "B" 1 50 (-1) true), some (sampleColumn "C" 2 25 (-1) true)]

/-- A resizable column A = 200 followed by a column B = 280 whose header is not
resizable: nothing to the right of A can absorb or give width. -/
def lastResizableList : LLScrollListCtrl :=
  sampleList [some (sampleColumn "A" 0 200 (-1) true),
    some (sampleColumn "B" 1 280 (-1) false)]

/-- Every column of the parent list stores its own position as its index. -/
def LLScrollListCtrl.indexed (ctrl : LLScrollListCtrl) : Prop :=
  ∀ (k : Int) (c : LLScrollListColumn), ctrl.getColumn k = some c → c.mIndex = k

/-- A configuration record with no field set. -/
def emptyLLSD : LLSD :=
  { name := none, label := none, sort := none, sort_ascending := none, relwidth := none,
    width := none, dynamicwidth := none, halign := none }

/-- Two columns with headers: A, 100 wide with content of width 105, and B,
whose header ends at 200 and whose content is 95 wide. -/
def snapList : LLScrollListCtrl :=
  sampleList
    [some { sampleColumn "A" 0 100 (-1) true with mMaxContentWidth := 105 },
     some { sampleColumn "B" 1 100 (-1) true with
       mMaxContentWidth := 95
       mHeader := some { sampleHeader 100 true with mSnapRect := ⟨100, 20, 200, 0⟩ } }]

/-- Five columns with headers: A, C and D resizable, B and E not. -/
def handlesList : LLScrollListCtrl :=
  sampleList [some (sampleColumn "A" 0 100 (-1) true),
    some (sampleColumn "B" 1 100 (-1) false), some (sampleColumn "C" 2 100 (-1) true),
    some (sampleColumn "D" 3 100 (-1) true), some (sampleColumn "E" 4 100 (-1) false)]

/-- Checks that the columns of a run store the positions `start`, `start + 1`,
... as their indices. -/
def indexedFrom (start : Nat) : List (Option LLScrollListColumn) → Bool
  | [] => true
  | none :: rest => indexedFrom (start + 1) rest
  | some c :: rest => decide (c.mIndex = (start : Int)) && indexedFrom (start + 1) rest

/-- A column A of width 100 with no measured content, followed by a column B
whose header is hidden and has no resizable element; the header of B ends at 200
and the content of B is 95 wide. -/
def hiddenNextList : LLScrollListCtrl :=
  sampleList
    [some (sampleColumn "A" 0 100 (-1) true),
     some { sampleColumn "B" 1 100 (-1) false with
       mMaxContentWidth := 95
       mHeader := some { sampleHeader 100 false with
         mVisible := false
         mSnapRect := ⟨100, 20, 200, 0⟩ } }]

/-- Three resizable columns of width 100 each. -/
def evenList : LLScrollListCtrl :=
  sampleList [some (sampleColumn "A" 0 100 (-1) true),
    some (sampleColumn "B" 1 100 (-1) true), some (sampleColumn "C" 2 100 (-1) true)]

theorem getColumn_natCast (ctrl : LLScrollListCtrl) (k : Nat) :
    ctrl.getColumn (k : Int) = (ctrl.mColumnsIndexed[k]?).join := by
  have h : ¬ ((k : Int) < 0) := by omega
  simp [LLScrollListCtrl.getColumn, h]

theorem getColumn_neg (ctrl : LLScrollListCtrl) (k : Int) (h : k < 0) :
    ctrl.getColumn k = none := by
  simp [LLScrollListCtrl.getColumn, h]

theorem putColumn_natCast (ctrl : LLScrollListCtrl) (k : Nat) (c : LLScrollListColumn) :
    (ctrl.putColumn (k : Int) c).mColumnsIndexed = ctrl.mColumnsIndexed.set k (some c) := by
  have h : ¬ ((k : Int) < 0) := by omega
  simp [LLScrollListCtrl.putColumn, h]

theorem getColumn_some_lt (ctrl : LLScrollListCtrl) (k : Nat) (c : LLScrollListColumn)
    (h : ctrl.getColumn (k : Int) = some c) :
    k < ctrl.mColumnsIndexed.length ∧ ctrl.mColumnsIndexed[k]? = some (some c) := by
  rw [getColumn_natCast] at h
  cases hk : ctrl.mColumnsIndexed[k]? with
  | none => rw [hk] at h; simp at h
  | some o =>
    rw [hk] at h
    cases o with
    | none => simp at h
    | some c0 =>
      simp at h
      subst h
      refine ⟨?_, rfl⟩
      by_contra hlt
      rw [List.getElem?_eq_none (by omega)] at hk
      simp at hk

/-! ## The sibling loop as a walk -/

theorem take_succ_set {α : Type} (l : List α) (k : Nat) (a : α) (hk : k < l.length) :
    (l.set k a).take (k + 1) = l.take k ++ [a] := by
  rw [List.take_succ, List.getElem?_set_self hk]
  congr 1
  apply List.ext_getElem?
  intro i
  rw [List.getElem?_take, List.getElem?_take]
  split
  · rw [List.getElem?_set_ne (by omega)]
  · rfl

theorem handleReshapeLoop_eq_walk (delta_width : Int) :
    ∀ (fuel k : Nat) (ctrl : LLScrollListCtrl) (rem : Int),
      fuel + k = ctrl.mColumnsIndexed.length →
      (handleReshapeLoop delta_width fuel (k : Int) ctrl rem).1.mColumnsIndexed
          = ctrl.mColumnsIndexed.take k ++
            (reshapeWalk delta_width ctrl.mItemListRectWidth
              (ctrl.mColumnsIndexed.drop k) rem).1
      ∧ (handleReshapeLoop delta_width fuel (k : Int) ctrl rem).2
          = (reshapeWalk delta_width ctrl.mItemListRectWidth
              (ctrl.mColumnsIndexed.drop k) rem).2
      ∧ (handleReshapeLoop delta_width fuel (k : Int) ctrl rem).1.mColumnPadding
          = ctrl.mColumnPadding
      ∧ (handleReshapeLoop delta_width fuel (k : Int) ctrl rem).1.mItemListRectWidth
          = ctrl.mItemListRectWidth := by
  intro fuel
  induction fuel with
  | zero =>
    intro k ctrl rem hlen
    have hk : ctrl.mColumnsIndexed.length ≤ k := by omega
    simp [handleReshapeLoop, List.drop_eq_nil_of_le hk, List.take_of_length_le hk, reshapeWalk]
  | succ fuel ih =>
    intro k ctrl rem hlen
    have hk : k < ctrl.mColumnsIndexed.length := by omega
    have hdrop := List.drop_eq_getElem_cons hk
    have htake : ctrl.mColumnsIndexed.take (k + 1)
        = ctrl.mColumnsIndexed.take k ++ [ctrl.mColumnsIndexed[k]] := by
      rw [List.take_succ, List.getElem?_eq_getElem hk]; rfl
    have hget : ctrl.getColumn (k : Int) = ctrl.mColumnsIndexed[k] := by
      rw [getColumn_natCast, List.getElem?_eq_getElem hk]; rfl
    have hcast : ((k : Int) + 1) = ((k + 1 : Nat) : Int) := by push_cast; rfl
    rw [handleReshapeLoop, hget, hdrop]
    cases hc : ctrl.mColumnsIndexed[k] with
    | none =>
      have h := ih (k + 1) ctrl rem (by omega)
      rw [hcast]
      simp only [reshapeWalk]
      rw [h.1, h.2.1, h.2.2.1, h.2.2.2, htake, hc]
      simp
    | some c =>
      simp only [reshapeWalk]
      by_cases hd : (reshapeSibling delta_width ctrl.mItemListRectWidth c rem).done = true
      · simp only [hd, if_true]
        refine ⟨?_, trivial, ?_, ?_⟩
        · simp only [LLScrollListCtrl.record]
          rw [putColumn_natCast, List.set_eq_take_append_cons_drop, if_pos hk]
        · simp [LLScrollListCtrl.record, LLScrollListCtrl.putColumn]
          split <;> rfl
        · simp [LLScrollListCtrl.record, LLScrollListCtrl.putColumn]
          split <;> rfl
      · simp only [hd, if_false, Bool.false_eq_true]
        have hcols : ((ctrl.putColumn (k : Int)
            (reshapeSibling delta_width ctrl.mItemListRectWidth c rem).column).record
            (reshapeSibling delta_width ctrl.mItemListRectWidth c rem).calls).mColumnsIndexed
            = ctrl.mColumnsIndexed.set k
              (some (reshapeSibling delta_width ctrl.mItemListRectWidth c rem).column) := by
          simp only [LLScrollListCtrl.record]
          rw [putColumn_natCast]
        have hpad : ((ctrl.putColumn (k : Int)
            (reshapeSibling delta_width ctrl.mItemListRectWidth c rem).column).record
            (reshapeSibling delta_width ctrl.mItemListRectWidth c rem).calls).mColumnPadding
            = ctrl.mColumnPadding := by
          simp [LLScrollListCtrl.record, LLScrollListCtrl.putColumn]
          split <;> rfl
        have hlw : ((ctrl.putColumn (k : Int)
            (reshapeSibling delta_width ctrl.mItemListRectWidth c rem).column).record
            (reshapeSibling delta_width ctrl.mItemListRectWidth c rem).calls).mItemListRectWidth
            = ctrl.mItemListRectWidth := by
          simp [LLScrollListCtrl.record, LLScrollListCtrl.putColumn]
          split <;> rfl
        have h := ih (k + 1) _ (reshapeSibling delta_width ctrl.mItemListRectWidth c rem).remaining_width
          (by rw [hcols, List.length_set]; omega)
        rw [hcast, h.1, h.2.1, h.2.2.1, h.2.2.2, hcols, hpad, hlw]
        have hts : (ctrl.mColumnsIndexed.set k
              (some (reshapeSibling delta_width ctrl.mItemListRectWidth c rem).column)).take (k + 1)
            = ctrl.mColumnsIndexed.take k ++
              [some (reshapeSibling delta_width ctrl.mItemListRectWidth c rem).column] := by
          exact take_succ_set _ _ _ hk
        have hds : (ctrl.mColumnsIndexed.set k
              (some (reshapeSibling delta_width ctrl.mItemListRectWidth c rem).column)).drop (k + 1)
            = ctrl.mColumnsIndexed.drop (k + 1) := by
          rw [List.drop_set_of_lt _ _ (Nat.lt_succ_self k)]
        rw [hts, hds]
        simp

theorem handleReshapeLoop_neg (delta_width : Int) (ctrl : LLScrollListCtrl) (rem : Int) :
    ∀ (m fuel : Nat),
      handleReshapeLoop delta_width (m + fuel) (-(m : Int)) ctrl rem
        = handleReshapeLoop delta_width fuel 0 ctrl rem := by
  intro m
  induction m with
  | zero => intro fuel; simp
  | succ m ih =>
    intro fuel
    have hfuel : m + 1 + fuel = (m + fuel) + 1 := by omega
    have hneg : (-((m + 1 : Nat) : Int)) < 0 := by omega
    have hstep : (-((m + 1 : Nat) : Int)) + 1 = -(m : Int) := by omega
    rw [hfuel, handleReshapeLoop, getColumn_neg ctrl _ hneg]
    simp only []
    rw [hstep]
    exact ih fuel

theorem handleReshapeLoop_from (delta_width : Int) (ctrl : LLScrollListCtrl) (rem : Int)
    (start : Int) :
    (handleReshapeLoop delta_width (ctrl.getNumColumns - start).toNat start ctrl rem).1.mColumnsIndexed
        = ctrl.mColumnsIndexed.take start.toNat ++
          (reshapeWalk delta_width ctrl.mItemListRectWidth
            (ctrl.mColumnsIndexed.drop start.toNat) rem).1
    ∧ (handleReshapeLoop delta_width (ctrl.getNumColumns - start).toNat start ctrl rem).2
        = (reshapeWalk delta_width ctrl.mItemListRectWidth
            (ctrl.mColumnsIndexed.drop start.toNat) rem).2
    ∧ (handleReshapeLoop delta_width (ctrl.getNumColumns - start).toNat start ctrl rem).1.mColumnPadding
        = ctrl.mColumnPadding
    ∧ (handleReshapeLoop delta_width (ctrl.getNumColumns - start).toNat start ctrl
        rem).1.mItemListRectWidth = ctrl.mItemListRectWidth := by
  unfold LLScrollListCtrl.getNumColumns
  rcases lt_or_le start 0 with hneg | hpos
  · obtain ⟨m, hm⟩ : ∃ m : Nat, start = -(m : Int) := ⟨(-start).toNat, by omega⟩
    subst hm
    have hfuel : ((ctrl.mColumnsIndexed.length : Int) - -(m : Int)).toNat
        = m + ctrl.mColumnsIndexed.length := by omega
    have hs : (-(m : Int)).toNat = 0 := by omega
    rw [hfuel, handleReshapeLoop_neg, hs]
    have h := handleReshapeLoop_eq_walk delta_width ctrl.mColumnsIndexed.length 0 ctrl rem (by omega)
    simpa using h
  · obtain ⟨k, hk⟩ : ∃ k : Nat, start = (k : Int) := ⟨start.toNat, by omega⟩
    subst hk
    have hs : ((k : Nat) : Int).toNat = k := by omega
    rw [hs]
    rcases Nat.lt_or_ge ctrl.mColumnsIndexed.length k with hgt | hle
    · have hfuel : ((ctrl.mColumnsIndexed.length : Int) - (k : Int)).toNat = 0 := by omega
      rw [hfuel]
      simp [handleReshapeLoop, List.drop_eq_nil_of_le (Nat.le_of_lt hgt),
        List.take_of_length_le (Nat.le_of_lt hgt), reshapeWalk]
    · have hfuel : ((ctrl.mColumnsIndexed.length : Int) - (k : Int)).toNat
          = ctrl.mColumnsIndexed.length - k := by omega
      rw [hfuel]
      exact handleReshapeLoop_eq_walk delta_width _ k ctrl rem (by omega)

/-! ## One pass of the sibling loop -/

theorem reshapeSibling_not_resizable (delta_width listWidth : Int) (c : LLScrollListColumn)
    (rem : Int) (h : c.headerCanResize = false) :
    reshapeSibling delta_width listWidth c rem = ⟨c, [], rem, false⟩ := by
  simp [reshapeSibling, h]

theorem reshapeSibling_shrink_remaining (delta_width listWidth : Int) (c : LLScrollListColumn)
    (rem : Int) (hd : delta_width < 0) :
    (reshapeSibling delta_width listWidth c rem).remaining_width = rem := by
  unfold reshapeSibling
  split
  · simp only [hd, if_true]
    split <;> rfl
  · rfl

theorem reshapeSibling_shrink_hit (delta_width listWidth : Int) (c : LLScrollListColumn)
    (rem : Int) (hd : delta_width < 0) (hres : c.headerCanResize = true) (hw : 0 < c.mWidth) :
    reshapeSibling delta_width listWidth c rem
      = ⟨(setWidthAndRelWidth c (c.mWidth + rem) listWidth).1,
          (setWidthAndRelWidth c (c.mWidth + rem) listWidth).2, rem, true⟩ := by
  simp [reshapeSibling, hres, hd, LLScrollListColumn.getWidth, hw]

theorem reshapeSibling_grow_remaining (delta_width listWidth : Int) (c : LLScrollListColumn)
    (rem : Int) (hd : ¬ delta_width < 0) :
    (reshapeSibling delta_width listWidth c rem).remaining_width = rem + shrinkBuffer (some c)
    ∧ ((reshapeSibling delta_width listWidth c rem).done = true
        → 0 ≤ rem + shrinkBuffer (some c))
    ∧ ((reshapeSibling delta_width listWidth c rem).done = false
        → c.headerCanResize = true → rem + shrinkBuffer (some c) < 0) := by
  unfold reshapeSibling shrinkBuffer
  by_cases hres : c.headerCanResize = true
  · simp only [hres, if_true, hd, if_false]
    refine ⟨trivial, ?_, ?_⟩
    · intro h; simpa using h
    · intro h _; simpa using h
  · simp [hres]

theorem setWidthAndRelWidth_width (c : LLScrollListColumn) (w listWidth : Int) :
    (setWidthAndRelWidth c w listWidth).1.mWidth = w := by
  unfold setWidthAndRelWidth LLScrollListColumn.setWidth
  by_cases h : c.mRelWidth > 0 <;> simp [h]

theorem setWidthAndRelWidth_relWidth (c : LLScrollListColumn) (w listWidth : Int) :
    (setWidthAndRelWidth c w listWidth).1.mRelWidth
      = if c.mRelWidth > 0 then (w : ℚ) / (listWidth : ℚ) else c.mRelWidth := by
  unfold setWidthAndRelWidth LLScrollListColumn.setWidth LLScrollListColumn.getWidth
  by_cases h : c.mRelWidth > 0 <;> simp [h]

/-! ## Properties of the walk -/

theorem reshapeWalk_length (delta_width listWidth : Int) :
    ∀ (l : List (Option LLScrollListColumn)) (rem : Int),
      (reshapeWalk delta_width listWidth l rem).1.length = l.length := by
  intro l
  induction l with
  | nil => intro rem; simp [reshapeWalk]
  | cons a rest ih =>
    intro rem
    cases a with
    | none => simp [reshapeWalk, ih]
    | some c =>
      simp only [reshapeWalk]
      split <;> simp [ih]

theorem reshapeWalk_getElem? (delta_width listWidth : Int) :
    ∀ (l : List (Option LLScrollListColumn)) (rem : Int) (k : Nat),
      (reshapeWalk delta_width listWidth l rem).1[k]? = l[k]?
      ∨ ∃ c rem1, l[k]? = some (some c)
          ∧ (reshapeWalk delta_width listWidth l rem).1[k]?
              = some (some (reshapeSibling delta_width listWidth c rem1).column)
          ∧ (delta_width < 0 → rem1 = rem) := by
  intro l
  induction l with
  | nil => intro rem k; left; simp [reshapeWalk]
  | cons a rest ih =>
    intro rem k
    cases a with
    | none =>
      cases k with
      | zero => left; simp [reshapeWalk]
      | succ k => simpa [reshapeWalk] using ih rem k
    | some c =>
      simp only [reshapeWalk]
      split
      · cases k with
        | zero => right; exact ⟨c, rem, by simp, by simp, fun _ => rfl⟩
        | succ k => left; simp
      · cases k with
        | zero => right; exact ⟨c, rem, by simp, by simp, fun _ => rfl⟩
        | succ k =>
          rcases ih (reshapeSibling delta_width listWidth c rem).remaining_width k with h | h
          · left; simpa using h
          · right
            obtain ⟨c1, rem1, h1, h2, h3⟩ := h
            refine ⟨c1, rem1, by simpa using h1, by simpa using h2, ?_⟩
            intro hd
            rw [h3 hd, reshapeSibling_shrink_remaining _ _ _ _ hd]

theorem reshapeSibling_shrink_skip (delta_width listWidth : Int) (c : LLScrollListColumn)
    (rem : Int) (hd : delta_width < 0) (h : c.headerCanResize = false ∨ c.mWidth ≤ 0) :
    reshapeSibling delta_width listWidth c rem = ⟨c, [], rem, false⟩ := by
  rcases h with h | h
  · exact reshapeSibling_not_resizable _ _ _ _ h
  · unfold reshapeSibling
    simp only [LLScrollListColumn.getWidth]
    split
    · rw [if_neg (by omega)]
    · rfl

theorem reshapeWalk_shrink (delta_width listWidth : Int) (hd : delta_width < 0) :
    ∀ (l : List (Option LLScrollListColumn)) (j : Nat) (n : LLScrollListColumn) (rem : Int),
      l[j]? = some (some n) → n.headerCanResize = true → 0 < n.mWidth →
      (∀ k : Nat, k < j → ∀ m, l[k]? = some (some m) →
        m.headerCanResize = false ∨ m.mWidth ≤ 0) →
      reshapeWalk delta_width listWidth l rem
        = (l.set j (some (setWidthAndRelWidth n (n.mWidth + rem) listWidth).1), rem) := by
  intro l
  induction l with
  | nil => intro j n rem hj; simp at hj
  | cons a rest ih =>
    intro j n rem hj hres hw hfirst
    cases j with
    | zero =>
      simp at hj
      subst hj
      simp [reshapeWalk, reshapeSibling_shrink_hit _ _ _ _ hd hres hw]
    | succ j =>
      simp at hj
      have hrest := ih j n rem hj hres hw (fun k hk m hm => hfirst (k + 1) (by omega) m (by simpa using hm))
      cases a with
      | none => simp [reshapeWalk, hrest]
      | some c =>
        have hc := hfirst 0 (by omega) c (by simp)
        simp [reshapeWalk, reshapeSibling_shrink_skip _ _ _ _ hd hc, hrest]

theorem shrinkBuffer_nonneg (o : Option LLScrollListColumn) : 0 ≤ shrinkBuffer o := by
  cases o with
  | none => simp [shrinkBuffer]
  | some c =>
    simp only [shrinkBuffer, llmax]
    split
    · split <;> omega
    · omega

theorem shrinkBufferSum_nonneg (l : List (Option LLScrollListColumn)) :
    0 ≤ shrinkBufferSum l := by
  unfold shrinkBufferSum
  apply List.sum_nonneg
  intro x hx
  simp only [List.mem_map] at hx
  obtain ⟨o, _, rfl⟩ := hx
  exact shrinkBuffer_nonneg o

theorem shrinkBufferSum_cons (o : Option LLScrollListColumn)
    (rest : List (Option LLScrollListColumn)) :
    shrinkBufferSum (o :: rest) = shrinkBuffer o + shrinkBufferSum rest := by
  simp [shrinkBufferSum]

theorem totalWidth_cons (o : Option LLScrollListColumn)
    (rest : List (Option LLScrollListColumn)) :
    totalWidth (o :: rest) = slotWidth o + totalWidth rest := by
  simp [totalWidth]

theorem totalWidth_append (l1 l2 : List (Option LLScrollListColumn)) :
    totalWidth (l1 ++ l2) = totalWidth l1 + totalWidth l2 := by
  simp [totalWidth]

theorem totalWidth_set (l : List (Option LLScrollListColumn)) (k : Nat)
    (o x : Option LLScrollListColumn) (hk : l[k]? = some o) :
    totalWidth (l.set k x) = totalWidth l - slotWidth o + slotWidth x := by
  induction l generalizing k with
  | nil => simp at hk
  | cons a rest ih =>
    cases k with
    | zero =>
      simp at hk
      subst hk
      simp only [List.set_cons_zero, totalWidth_cons]
      omega
    | succ k =>
      simp at hk
      simp only [List.set_cons_succ, totalWidth_cons, ih k hk]
      omega

theorem reshapeWalk_grow_remaining (delta_width listWidth : Int) (hd : ¬ delta_width < 0) :
    ∀ (l : List (Option LLScrollListColumn)) (rem : Int),
      (reshapeWalk delta_width listWidth l rem).2 ≤ rem + shrinkBufferSum l
      ∧ ((reshapeWalk delta_width listWidth l rem).2 < 0
          → (reshapeWalk delta_width listWidth l rem).2 = rem + shrinkBufferSum l) := by
  intro l
  induction l with
  | nil => intro rem; simp [reshapeWalk, shrinkBufferSum]
  | cons a rest ih =>
    intro rem
    have hnn := shrinkBufferSum_nonneg
    cases a with
    | none =>
      have h := ih rem
      simpa [reshapeWalk, shrinkBufferSum, shrinkBuffer] using h
    | some c =>
      have hs := reshapeSibling_grow_remaining delta_width listWidth c rem hd
      have hsum : shrinkBufferSum (some c :: rest) = shrinkBuffer (some c) + shrinkBufferSum rest := by
        simp [shrinkBufferSum]
      simp only [reshapeWalk]
      split
      · rename_i hdone
        have h0 := hs.2.1 hdone
        have hr := hnn rest
        simp only [hs.1, hsum]
        constructor
        · omega
        · intro hlt; omega
      · have h := ih (reshapeSibling delta_width listWidth c rem).remaining_width
        simp only [hs.1, hsum] at h ⊢
        constructor
        · have := h.1; omega
        · intro hlt; have := h.2 hlt; omega

/-! ## The whole of `handleReshape` -/

theorem afterSiblings_getElem? (ctrl : LLScrollListCtrl) (start delta_width : Int) (k : Nat) :
    (afterSiblings ctrl start delta_width)[k]? = ctrl.mColumnsIndexed[k]?
    ∨ ∃ c rem1, start.toNat ≤ k ∧ ctrl.mColumnsIndexed[k]? = some (some c)
        ∧ (afterSiblings ctrl start delta_width)[k]?
            = some (some (reshapeSibling delta_width ctrl.mItemListRectWidth c rem1).column)
        ∧ (delta_width < 0 → rem1 = -delta_width) := by
  unfold afterSiblings
  rw [List.getElem?_append]
  split
  · rename_i hlt
    left
    rw [List.length_take] at hlt
    rw [List.getElem?_take_of_lt (by omega)]
  · rename_i hge
    rw [List.length_take] at hge
    rcases Nat.lt_or_ge ctrl.mColumnsIndexed.length start.toNat with hgt | hle
    · left
      rw [List.drop_eq_nil_of_le (Nat.le_of_lt hgt)]
      simp only [reshapeWalk]
      rw [List.getElem?_eq_none (l := ctrl.mColumnsIndexed) (by omega)]
      simp
    · have hmin : min start.toNat ctrl.mColumnsIndexed.length = start.toNat := by omega
      have hk : start.toNat + (k - start.toNat) = k := by omega
      rw [List.length_take, hmin]
      rcases reshapeWalk_getElem? delta_width ctrl.mItemListRectWidth
          (ctrl.mColumnsIndexed.drop start.toNat) (-delta_width) (k - start.toNat) with h | h
      · left
        rw [h, List.getElem?_drop, hk]
      · right
        obtain ⟨c, rem1, h1, h2, h3⟩ := h
        rw [List.getElem?_drop, hk] at h1
        exact ⟨c, rem1, by omega, h1, h2, h3⟩

theorem afterSiblings_length (ctrl : LLScrollListCtrl) (start delta_width : Int) :
    (afterSiblings ctrl start delta_width).length = ctrl.mColumnsIndexed.length := by
  unfold afterSiblings
  rw [List.length_append, reshapeWalk_length, List.length_take, List.length_drop]
  omega

theorem handleReshape_columns (ctrl : LLScrollListCtrl) (i : Nat) (new_rect : LLRect)
    (by_user : Bool) (c : LLScrollListColumn) (h : LLScrollColumnHeader)
    (hcol : ctrl.getColumn (i : Int) = some c) (hhdr : c.mHeader = some h)
    (hne : new_rect.getWidth - h.getRect.getWidth ≠ 0) :
    ∃ ctrl1 c1,
      handleReshape ctrl i new_rect by_user = some ctrl1
      ∧ (afterSiblings ctrl (c.mIndex + 1) (new_rect.getWidth - h.getRect.getWidth))[i]?
          = some (some c1)
      ∧ ctrl1.mColumnsIndexed
          = (afterSiblings ctrl (c.mIndex + 1) (new_rect.getWidth - h.getRect.getWidth)).set i
              (some (setWidthAndRelWidth c1
                (h.getRect.getWidth
                  + clampedDelta (new_rect.getWidth - h.getRect.getWidth)
                      (remainingAfterSiblings ctrl (c.mIndex + 1)
                        (new_rect.getWidth - h.getRect.getWidth))
                  - ctrl.mColumnPadding) ctrl.mItemListRectWidth).1)
      ∧ ctrl1.mColumnPadding = ctrl.mColumnPadding
      ∧ ctrl1.mItemListRectWidth = ctrl.mItemListRectWidth := by
  obtain ⟨hlt, hci⟩ := getColumn_some_lt ctrl i c hcol
  have hloop := handleReshapeLoop_from (new_rect.getWidth - h.getRect.getWidth) ctrl
    (-(new_rect.getWidth - h.getRect.getWidth)) (c.mIndex + 1)
  obtain ⟨hl1, hl2, hl3, hl4⟩ := hloop
  have hc1 : ∃ c1, (afterSiblings ctrl (c.mIndex + 1)
      (new_rect.getWidth - h.getRect.getWidth))[i]? = some (some c1) := by
    rcases afterSiblings_getElem? ctrl (c.mIndex + 1)
        (new_rect.getWidth - h.getRect.getWidth) i with h1 | h1
    · exact ⟨c, by rw [h1, hci]⟩
    · obtain ⟨c0, rem1, _, _, h2, _⟩ := h1
      exact ⟨_, h2⟩
  obtain ⟨c1, hc1⟩ := hc1
  have hget : (handleReshapeLoop (new_rect.getWidth - h.getRect.getWidth)
      (ctrl.getNumColumns - (c.mIndex + 1)).toNat (c.mIndex + 1) ctrl
      (-(new_rect.getWidth - h.getRect.getWidth))).1.getColumn (i : Int) = some c1 := by
    rw [getColumn_natCast, hl1]
    have := hc1
    unfold afterSiblings at this
    rw [this]; rfl
  obtain ⟨ctrl1, hres⟩ : ∃ ctrl1, handleReshape ctrl i new_rect by_user = some ctrl1 := by
    simp only [handleReshape, hcol, hhdr, hne, if_true, ne_eq, not_false_eq_true, hget]
    exact ⟨_, rfl⟩
  refine ⟨ctrl1, c1, hres, hc1, ?_, ?_, ?_⟩
  all_goals
    simp only [handleReshape, hcol, hhdr, hne, if_true, ne_eq, not_false_eq_true, hget,
      Option.some.injEq] at hres
    rw [← hres]
  · simp only [LLScrollListCtrl.record]
    rw [putColumn_natCast, hl1, hl2, hl3, hl4]
    unfold afterSiblings remainingAfterSiblings clampedDelta setWidthAndRelWidth
      LLScrollListColumn.getWidth LLScrollListColumn.setWidth
    simp only []
    congr 2
    split <;> rfl
  · simp only [LLScrollListCtrl.record, LLScrollListCtrl.putColumn]
    split <;> exact hl3
  · simp only [LLScrollListCtrl.record, LLScrollListCtrl.putColumn]
    split <;> exact hl4

theorem take_append_set_drop {α : Type} (l : List α) (s t : Nat) (x : α) :
    l.take s ++ (l.drop s).set t x = l.set (s + t) x := by
  apply List.ext_getElem?
  intro k
  rw [List.getElem?_append, List.length_take]
  by_cases hk : k < min s l.length
  · rw [if_pos hk, List.getElem?_take_of_lt (by omega), List.getElem?_set_ne (by omega)]
  · rw [if_neg hk]
    by_cases hs : s ≤ l.length
    · have hmin : min s l.length = s := by omega
      rw [hmin]
      by_cases hkt : k = s + t
      · subst hkt
        have h1 : s + t - s = t := by omega
        rw [h1, List.getElem?_set_self', List.getElem?_set_self', List.getElem?_drop]
      · rw [List.getElem?_set_ne (by omega), List.getElem?_set_ne (by omega),
          List.getElem?_drop]
        congr 1
        omega
    · have hd : l.drop s = [] := List.drop_eq_nil_of_le (by omega)
      rw [hd, List.set_eq_of_length_le (l := l) (by omega)]
      rw [List.getElem?_eq_none (l := l) (by omega)]
      simp

theorem handleReshape_columns_indexed (ctrl : LLScrollListCtrl) (i : Nat) (new_rect : LLRect)
    (by_user : Bool) (c : LLScrollListColumn) (h : LLScrollColumnHeader)
    (hcol : ctrl.getColumn (i : Int) = some c) (hidx : c.mIndex = (i : Int))
    (hhdr : c.mHeader = some h)
    (hne : new_rect.getWidth - h.getRect.getWidth ≠ 0) :
    ∃ ctrl1,
      handleReshape ctrl i new_rect by_user = some ctrl1
      ∧ ctrl1.mColumnsIndexed
          = (afterSiblings ctrl ((i : Int) + 1) (new_rect.getWidth - h.getRect.getWidth)).set i
              (some (setWidthAndRelWidth c
                (h.getRect.getWidth
                  + clampedDelta (new_rect.getWidth - h.getRect.getWidth)
                      (remainingAfterSiblings ctrl ((i : Int) + 1)
                        (new_rect.getWidth - h.getRect.getWidth))
                  - ctrl.mColumnPadding) ctrl.mItemListRectWidth).1)
      ∧ ctrl1.mColumnPadding = ctrl.mColumnPadding
      ∧ ctrl1.mItemListRectWidth = ctrl.mItemListRectWidth := by
  obtain ⟨ctrl1, c1, h1, h2, h3, h4, h5⟩ :=
    handleReshape_columns ctrl i new_rect by_user c h hcol hhdr hne
  obtain ⟨hlt, hci⟩ := getColumn_some_lt ctrl i c hcol
  rw [hidx] at h2 h3
  have hc : c1 = c := by
    rcases afterSiblings_getElem? ctrl ((i : Int) + 1)
        (new_rect.getWidth - h.getRect.getWidth) i with h6 | h6
    · rw [h2, hci] at h6
      simpa using h6
    · obtain ⟨_, _, hle, _⟩ := h6
      omega
  subst hc
  exact ⟨ctrl1, h1, h3, h4, h5⟩

theorem afterSiblings_shrink (ctrl : LLScrollListCtrl) (i j : Nat) (n : LLScrollListColumn)
    (X : Int) (hX : 0 < X) (hij : i < j)
    (hn : ctrl.getColumn (j : Int) = some n) (hres : n.headerCanResize = true)
    (hW : 0 < n.mWidth)
    (hfirst : ∀ k : Nat, i < k → k < j → ∀ m, ctrl.getColumn (k : Int) = some m →
      m.headerCanResize = false) :
    afterSiblings ctrl ((i : Int) + 1) (-X)
      = ctrl.mColumnsIndexed.set j
          (some (setWidthAndRelWidth n (n.mWidth + X) ctrl.mItemListRectWidth).1) := by
  obtain ⟨hlt, hcj⟩ := getColumn_some_lt ctrl j n hn
  have hs : ((i : Int) + 1).toNat = i + 1 := by omega
  have hj : i + 1 + (j - (i + 1)) = j := by omega
  unfold afterSiblings
  rw [hs, reshapeWalk_shrink (-X) ctrl.mItemListRectWidth (by omega)
    (ctrl.mColumnsIndexed.drop (i + 1)) (j - (i + 1)) n (- -X)
    (by rw [List.getElem?_drop, hj]; exact hcj) hres hW]
  · simp only [neg_neg]
    rw [take_append_set_drop, hj]
  · intro k hk m hm
    rw [List.getElem?_drop] at hm
    left
    apply hfirst (i + 1 + k) (by omega) (by omega) m
    rw [getColumn_natCast, hm]
    rfl

/-- C1 (shrink drag).  The header of the column at position `i`, whose stored
index is its position and whose rectangle has width `R`, is reshaped to width
`R - X` with `X > 0`.  If the first column to its right whose header is present
and can resize sits at position `j` and has width `W > 0`, then the call
returns, that column ends with width `W + X`, the dragged column ends with width
`R - X - columnPadding`, and every other column is left as it was. -/
theorem handleReshape_shrink_first_resizable (ctrl : LLScrollListCtrl) (i j : Nat)
    (new_rect : LLRect) (by_user : Bool) (c n : LLScrollListColumn)
    (h : LLScrollColumnHeader) (X : Int)
    (hcol : ctrl.getColumn (i : Int) = some c) (hidx : c.mIndex = (i : Int))
    (hhdr : c.mHeader = some h)
    (hX : 0 < X) (hrect : new_rect.getWidth = h.getRect.getWidth - X)
    (hij : i < j) (hn : ctrl.getColumn (j : Int) = some n)
    (hres : n.headerCanResize = true) (hW : 0 < n.mWidth)
    (hfirst : ∀ k : Nat, i < k → k < j → ∀ m, ctrl.getColumn (k : Int) = some m →
      m.headerCanResize = false) :
    ∃ ctrl1, handleReshape ctrl i new_rect by_user = some ctrl1
      ∧ (∃ n1, ctrl1.getColumn (j : Int) = some n1 ∧ n1.mWidth = n.mWidth + X)
      ∧ (∃ c1, ctrl1.getColumn (i : Int) = some c1
          ∧ c1.mWidth = h.getRect.getWidth - X - ctrl.mColumnPadding)
      ∧ (∀ k : Nat, k ≠ i → k ≠ j → ctrl1.getColumn (k : Int) = ctrl.getColumn (k : Int)) := by
  have hδ : new_rect.getWidth - h.getRect.getWidth = -X := by omega
  obtain ⟨ctrl1, h1, h2, _, _⟩ :=
    handleReshape_columns_indexed ctrl i new_rect by_user c h hcol hidx hhdr
      (by rw [hδ]; omega)
  obtain ⟨hilt, _⟩ := getColumn_some_lt ctrl i c hcol
  obtain ⟨hjlt, _⟩ := getColumn_some_lt ctrl j n hn
  rw [hδ, afterSiblings_shrink ctrl i j n X hX hij hn hres hW hfirst] at h2
  have hcl : ∀ r, clampedDelta (-X) r = -X := by
    intro r
    unfold clampedDelta
    rw [if_neg (by omega)]
  rw [hcl] at h2
  refine ⟨ctrl1, h1,
    ⟨(setWidthAndRelWidth n (n.mWidth + X) ctrl.mItemListRectWidth).1, ?_,
      setWidthAndRelWidth_width _ _ _⟩,
    ⟨(setWidthAndRelWidth c (h.getRect.getWidth + -X - ctrl.mColumnPadding)
      ctrl.mItemListRectWidth).1, ?_, ?_⟩, ?_⟩
  · rw [getColumn_natCast, h2, List.getElem?_set_ne (by omega),
      List.getElem?_set_self (by omega)]
    rfl
  · rw [getColumn_natCast, h2, List.getElem?_set_self (by rw [List.length_set]; omega)]
    rfl
  · rw [setWidthAndRelWidth_width]
    omega
  · intro k hki hkj
    rw [getColumn_natCast, getColumn_natCast, h2, List.getElem?_set_ne (by omega),
      List.getElem?_set_ne (by omega)]

/-- C1, the scenario of the specification: list width 500, padding 0, A = 200,
B = 280, A shrunk by 50 gives A = 150 and B = 330. -/
theorem handleReshape_shrink_first_resizable_witness :
    ∃ ctrl1, handleReshape scenarioList 0 ⟨0, 20, 150, 0⟩ true = some ctrl1
      ∧ (∃ n1, ctrl1.getColumn 1 = some n1 ∧ n1.mWidth = 330)
      ∧ (∃ c1, ctrl1.getColumn 0 = some c1 ∧ c1.mWidth = 150)
      ∧ (∀ k : Nat, k ≠ 0 → k ≠ 1 →
          ctrl1.getColumn (k : Int) = scenarioList.getColumn (k : Int)) :=
  handleReshape_shrink_first_resizable scenarioList 0 1 ⟨0, 20, 150, 0⟩ true
    (sampleColumn "A" 0 200 (2 / 5) true) (sampleColumn "B" 1 280 (-1) true)
    (sampleHeader 200 true) 50 rfl rfl rfl (by decide) (by decide) (by decide) rfl rfl
    (by decide) (fun k h1 h2 => absurd h2 (by omega))

theorem clampedDelta_grow (ctrl : LLScrollListCtrl) (i : Nat) (X : Int) (hX : 0 < X) :
    clampedDelta X (remainingAfterSiblings ctrl ((i : Int) + 1) X)
      = min X (shrinkBufferSum (ctrl.mColumnsIndexed.drop (i + 1))) := by
  have hs : ((i : Int) + 1).toNat = i + 1 := by omega
  have hw := reshapeWalk_grow_remaining X ctrl.mItemListRectWidth (by omega)
    (ctrl.mColumnsIndexed.drop (i + 1)) (-X)
  unfold clampedDelta remainingAfterSiblings llmin
  rw [hs, if_pos hX]
  obtain ⟨h1, h2⟩ := hw
  split
  · rename_i hlt
    have := h2 hlt
    rw [min_def]
    split <;> omega
  · rw [min_def]
    split <;> omega

/-- C2 (grow clamp).  The header of the column at position `i`, whose stored
index is its position and whose rectangle has width `R`, is reshaped to width
`R + X` with `X > 0`.  The call returns and the dragged column ends with width
`R + min(X, S) - columnPadding`, where `S` is the sum of `max(0, width - 20)` over
the resizable columns to its right. -/
theorem handleReshape_grow_clamped (ctrl : LLScrollListCtrl) (i : Nat)
    (new_rect : LLRect) (by_user : Bool) (c : LLScrollListColumn)
    (h : LLScrollColumnHeader) (X : Int)
    (hcol : ctrl.getColumn (i : Int) = some c) (hidx : c.mIndex = (i : Int))
    (hhdr : c.mHeader = some h)
    (hX : 0 < X) (hrect : new_rect.getWidth = h.getRect.getWidth + X) :
    ∃ ctrl1, handleReshape ctrl i new_rect by_user = some ctrl1
      ∧ ∃ c1, ctrl1.getColumn (i : Int) = some c1
          ∧ c1.mWidth = h.getRect.getWidth
              + min X (shrinkBufferSum (ctrl.mColumnsIndexed.drop (i + 1)))
              - ctrl.mColumnPadding := by
  have hδ : new_rect.getWidth - h.getRect.getWidth = X := by omega
  obtain ⟨ctrl1, h1, h2, _, _⟩ :=
    handleReshape_columns_indexed ctrl i new_rect by_user c h hcol hidx hhdr
      (by rw [hδ]; omega)
  obtain ⟨hilt, _⟩ := getColumn_some_lt ctrl i c hcol
  rw [hδ, clampedDelta_grow ctrl i X hX] at h2
  refine ⟨ctrl1, h1, (setWidthAndRelWidth c (h.getRect.getWidth
    + min X (shrinkBufferSum (ctrl.mColumnsIndexed.drop (i + 1)))
    - ctrl.mColumnPadding) ctrl.mItemListRectWidth).1, ?_, setWidthAndRelWidth_width _ _ _⟩
  rw [getColumn_natCast, h2,
    List.getElem?_set_self (by rw [afterSiblings_length]; omega)]
  rfl

/-- C2 at a concrete list: A = 200 followed by B = 50 and C = 25, all
resizable, so the buffer is 30 + 5 = 35; growing A by 100 leaves A at 235. -/
theorem handleReshape_grow_clamped_witness :
    ∃ ctrl1, handleReshape growList 0 ⟨0, 20, 300, 0⟩ true = some ctrl1
      ∧ ∃ c1, ctrl1.getColumn 0 = some c1 ∧ c1.mWidth = 235 :=
  handleReshape_grow_clamped growList 0 ⟨0, 20, 300, 0⟩ true
    (sampleColumn "A" 0 200 (-1) true) (sampleHeader 200 true) 100 rfl rfl rfl
    (by decide) (by decide)

theorem handleReshape_zero (ctrl : LLScrollListCtrl) (i : Nat) (new_rect : LLRect)
    (by_user : Bool) (c : LLScrollListColumn) (h : LLScrollColumnHeader)
    (hcol : ctrl.getColumn (i : Int) = some c) (hhdr : c.mHeader = some h)
    (hrect : new_rect.getWidth - h.getRect.getWidth = 0) :
    handleReshape ctrl i new_rect by_user = some ctrl := by
  simp [handleReshape, hcol, hhdr, hrect]

theorem reshapeSibling_floor (delta_width listWidth : Int) (m : LLScrollListColumn)
    (rem : Int) (hrem : delta_width < 0 → 0 ≤ rem) (hw : MIN_COLUMN_WIDTH ≤ m.mWidth) :
    MIN_COLUMN_WIDTH ≤ (reshapeSibling delta_width listWidth m rem).column.mWidth := by
  unfold reshapeSibling
  simp only [LLScrollListColumn.getWidth]
  split
  · split
    · rename_i hd
      have := hrem hd
      split
      · simp only [setWidthAndRelWidth_width]
        omega
      · exact hw
    · split
      · simp only [setWidthAndRelWidth_width]
        unfold llmin
        split <;> omega
      · exact hw
  · exact hw

/-- C4 (minimum-width floor).  For every list and every reshape of the header at
position `i`, growing or shrinking by any amount, the call returns and every
other column whose width was at least `MIN_COLUMN_WIDTH = 20` before the call has
width at least 20 after it. -/
theorem handleReshape_min_width_floor (ctrl : LLScrollListCtrl) (i : Nat)
    (new_rect : LLRect) (by_user : Bool) (c : LLScrollListColumn)
    (h : LLScrollColumnHeader)
    (hcol : ctrl.getColumn (i : Int) = some c) (hhdr : c.mHeader = some h) :
    ∃ ctrl1, handleReshape ctrl i new_rect by_user = some ctrl1
      ∧ ∀ (k : Nat) (m : LLScrollListColumn), k ≠ i →
          ctrl.getColumn (k : Int) = some m → MIN_COLUMN_WIDTH ≤ m.mWidth →
          ∃ m1, ctrl1.getColumn (k : Int) = some m1 ∧ MIN_COLUMN_WIDTH ≤ m1.mWidth := by
  by_cases hz : new_rect.getWidth - h.getRect.getWidth = 0
  · exact ⟨ctrl, handleReshape_zero ctrl i new_rect by_user c h hcol hhdr hz,
      fun k m _ hm hw => ⟨m, hm, hw⟩⟩
  · obtain ⟨ctrl1, c1, h1, _, h3, _, _⟩ :=
      handleReshape_columns ctrl i new_rect by_user c h hcol hhdr hz
    refine ⟨ctrl1, h1, ?_⟩
    intro k m hki hm hw
    obtain ⟨_, hck⟩ := getColumn_some_lt ctrl k m hm
    rw [getColumn_natCast, h3, List.getElem?_set_ne (by omega)]
    rcases afterSiblings_getElem? ctrl (c.mIndex + 1)
        (new_rect.getWidth - h.getRect.getWidth) k with h6 | h6
    · rw [h6, hck]
      exact ⟨m, rfl, hw⟩
    · obtain ⟨m0, rem1, _, hm0, h7, h8⟩ := h6
      rw [hck] at hm0
      have hmm : m0 = m := by simpa using hm0.symm
      subst hmm
      rw [h7]
      exact ⟨_, rfl, reshapeSibling_floor _ _ _ _ (fun hd => by rw [h8 hd]; omega) hw⟩

/-- C4 at a concrete list: growing A by 100 over B = 50 and C = 25 keeps every
sibling that had at least 20 pixels at 20 or more. -/
theorem handleReshape_min_width_floor_witness :
    ∃ ctrl1, handleReshape growList 0 ⟨0, 20, 300, 0⟩ true = some ctrl1
      ∧ ∀ (k : Nat) (m : LLScrollListColumn), k ≠ 0 →
          growList.getColumn (k : Int) = some m → MIN_COLUMN_WIDTH ≤ m.mWidth →
          ∃ m1, ctrl1.getColumn (k : Int) = some m1 ∧ MIN_COLUMN_WIDTH ≤ m1.mWidth :=
  handleReshape_min_width_floor growList 0 ⟨0, 20, 300, 0⟩ true
    (sampleColumn "A" 0 200 (-1) true) (sampleHeader 200 true) rfl rfl

/-- C9 (zero delta).  Reshaping a header to a rectangle of its current width
returns the parent list exactly as it was: no column, width or relative width
changes and no call (`updateStaticColumnWidth`, `dirtyColumns`, `updateColumns`)
is made on the parent list. -/
theorem handleReshape_zero_delta_noop (ctrl : LLScrollListCtrl) (i : Nat)
    (new_rect : LLRect) (by_user : Bool) (c : LLScrollListColumn)
    (h : LLScrollColumnHeader)
    (hcol : ctrl.getColumn (i : Int) = some c) (hhdr : c.mHeader = some h)
    (hrect : new_rect.getWidth = h.getRect.getWidth) :
    handleReshape ctrl i new_rect by_user = some ctrl :=
  handleReshape_zero ctrl i new_rect by_user c h hcol hhdr (by omega)

/-- C9 at the scenario list: a rectangle of width 200 for the header of A. -/
theorem handleReshape_zero_delta_noop_witness :
    handleReshape scenarioList 0 ⟨10, 20, 210, 0⟩ true = some scenarioList :=
  handleReshape_zero_delta_noop scenarioList 0 ⟨10, 20, 210, 0⟩ true
    (sampleColumn "A" 0 200 (2 / 5) true) (sampleHeader 200 true) rfl rfl (by decide)

theorem reshapeSibling_column (delta_width listWidth : Int) (m : LLScrollListColumn)
    (rem : Int) :
    (reshapeSibling delta_width listWidth m rem).column = m
    ∨ ∃ w, (reshapeSibling delta_width listWidth m rem).column
        = (setWidthAndRelWidth m w listWidth).1 := by
  unfold reshapeSibling
  split
  · split
    · split
      · right; exact ⟨_, rfl⟩
      · left; rfl
    · split
      · right; exact ⟨_, rfl⟩
      · left; rfl
  · left; rfl

/-- C8 (relative-width recomputation, exact rationals).  After a reshape with
non-zero delta of the header at position `i` (stored index equal to position) of
a list whose item-list content width is non-zero, every column that had a
relative width set (> 0) beforehand and is either the dragged column or a column
whose width the call changed has a relative width equal to its new pixel width
divided by the item-list content width. -/
theorem handleReshape_relWidth_recomputed (ctrl : LLScrollListCtrl) (i : Nat)
    (new_rect : LLRect) (by_user : Bool) (c : LLScrollListColumn)
    (h : LLScrollColumnHeader)
    (hcol : ctrl.getColumn (i : Int) = some c) (hidx : c.mIndex = (i : Int))
    (hhdr : c.mHeader = some h)
    (hne : new_rect.getWidth ≠ h.getRect.getWidth)
    (_hlw : ctrl.mItemListRectWidth ≠ 0) :
    ∃ ctrl1, handleReshape ctrl i new_rect by_user = some ctrl1
      ∧ ∀ (k : Nat) (m m1 : LLScrollListColumn),
          ctrl.getColumn (k : Int) = some m → ctrl1.getColumn (k : Int) = some m1 →
          0 < m.mRelWidth → (k = i ∨ m1.mWidth ≠ m.mWidth) →
          m1.mRelWidth = (m1.mWidth : ℚ) / (ctrl.mItemListRectWidth : ℚ) := by
  obtain ⟨ctrl1, h1, h2, _, _⟩ :=
    handleReshape_columns_indexed ctrl i new_rect by_user c h hcol hidx hhdr
      (by omega)
  obtain ⟨hilt, _⟩ := getColumn_some_lt ctrl i c hcol
  refine ⟨ctrl1, h1, ?_⟩
  intro k m m1 hm hm1 hrel hset
  obtain ⟨_, hck⟩ := getColumn_some_lt ctrl k m hm
  rw [getColumn_natCast, h2] at hm1
  by_cases hki : k = i
  · subst hki
    rw [List.getElem?_set_self (by rw [afterSiblings_length]; omega)] at hm1
    have hcm : c = m := by rw [hcol] at hm; simpa using hm
    subst hcm
    have hm1' : (setWidthAndRelWidth c (h.getRect.getWidth
        + clampedDelta (new_rect.getWidth - h.getRect.getWidth)
            (remainingAfterSiblings ctrl ((k : Int) + 1)
              (new_rect.getWidth - h.getRect.getWidth))
        - ctrl.mColumnPadding) ctrl.mItemListRectWidth).1 = m1 := by
      simpa using hm1
    rw [← hm1', setWidthAndRelWidth_relWidth, setWidthAndRelWidth_width, if_pos hrel]
  · rw [List.getElem?_set_ne (by omega)] at hm1
    rcases afterSiblings_getElem? ctrl ((i : Int) + 1)
        (new_rect.getWidth - h.getRect.getWidth) k with h6 | h6
    · rw [h6, hck] at hm1
      have hmm : m = m1 := by simpa using hm1
      subst hmm
      rcases hset with h7 | h7
      · exact absurd h7 hki
      · exact absurd rfl h7
    · obtain ⟨m0, rem1, _, hm0, h7, _⟩ := h6
      rw [hck] at hm0
      have hmm : m0 = m := by simpa using hm0.symm
      subst hmm
      rw [h7] at hm1
      have hm1' : (reshapeSibling (new_rect.getWidth - h.getRect.getWidth)
          ctrl.mItemListRectWidth m0 rem1).column = m1 := by simpa using hm1
      rcases reshapeSibling_column (new_rect.getWidth - h.getRect.getWidth)
          ctrl.mItemListRectWidth m0 rem1 with h8 | ⟨w, h8⟩
      · rw [h8] at hm1'
        subst hm1'
        rcases hset with h9 | h9
        · exact absurd h9 hki
        · exact absurd rfl h9
      · rw [h8] at hm1'
        rw [← hm1', setWidthAndRelWidth_relWidth, setWidthAndRelWidth_width, if_pos hrel]

/-- C8 at the scenario of the specification: list width 500, column A (relative
width set) resized from 200 to 150. -/
theorem handleReshape_relWidth_recomputed_witness :
    ∃ ctrl1, handleReshape scenarioList 0 ⟨0, 20, 150, 0⟩ true = some ctrl1
      ∧ ∀ (k : Nat) (m m1 : LLScrollListColumn),
          scenarioList.getColumn (k : Int) = some m → ctrl1.getColumn (k : Int) = some m1 →
          0 < m.mRelWidth → (k = 0 ∨ m1.mWidth ≠ m.mWidth) →
          m1.mRelWidth = (m1.mWidth : ℚ) / ((500 : Int) : ℚ) :=
  handleReshape_relWidth_recomputed scenarioList 0 ⟨0, 20, 150, 0⟩ true
    (sampleColumn "A" 0 200 (2 / 5) true) (sampleHeader 200 true) rfl rfl rfl
    (by decide) (by decide)

/-! ## Total width across a reshape -/

theorem reshapeWalk_shrink_total (delta_width listWidth : Int) (hd : delta_width < 0) :
    ∀ (l : List (Option LLScrollListColumn)) (rem : Int),
      (∃ (k : Nat) (n : LLScrollListColumn),
        l[k]? = some (some n) ∧ n.headerCanResize = true ∧ 0 < n.mWidth) →
      totalWidth (reshapeWalk delta_width listWidth l rem).1 = totalWidth l + rem := by
  intro l
  induction l with
  | nil => intro rem ⟨k, n, hk, _⟩; simp at hk
  | cons a rest ih =>
    intro rem ⟨k, n, hk, hres, hw⟩
    cases a with
    | none =>
      cases k with
      | zero => simp at hk
      | succ k =>
        have := ih rem ⟨k, n, by simpa using hk, hres, hw⟩
        simp only [reshapeWalk, totalWidth_cons, this]
        omega
    | some c =>
      by_cases hc : c.headerCanResize = true ∧ 0 < c.mWidth
      · simp only [reshapeWalk, reshapeSibling_shrink_hit _ _ _ _ hd hc.1 hc.2, if_true,
          totalWidth_cons, slotWidth, LLScrollListColumn.getWidth, setWidthAndRelWidth_width]
        omega
      · have hskip : c.headerCanResize = false ∨ c.mWidth ≤ 0 := by
          by_cases h1 : c.headerCanResize = true
          · right
            have : ¬ 0 < c.mWidth := fun h2 => hc ⟨h1, h2⟩
            omega
          · left; simpa using h1
        cases k with
        | zero =>
          simp at hk
          subst hk
          exact absurd ⟨hres, hw⟩ hc
        | succ k =>
          have := ih rem ⟨k, n, by simpa using hk, hres, hw⟩
          simp only [reshapeWalk, reshapeSibling_shrink_skip _ _ _ _ hd hskip,
            Bool.false_eq_true, if_false, totalWidth_cons, this]
          omega

theorem reshapeSibling_grow_width (delta_width listWidth : Int) (c : LLScrollListColumn)
    (rem : Int) (hd : ¬ delta_width < 0) :
    (reshapeSibling delta_width listWidth c rem).column.mWidth
      = if c.headerCanResize = true ∧ 0 < c.mWidth then
          c.mWidth - llmin (c.mWidth - MIN_COLUMN_WIDTH) delta_width
        else c.mWidth := by
  unfold reshapeSibling
  simp only [LLScrollListColumn.getWidth]
  by_cases hres : c.headerCanResize = true
  · by_cases hw : 0 < c.mWidth
    · simp [hres, hd, hw, setWidthAndRelWidth_width]
    · simp [hres, hd, hw]
  · simp [hres]

theorem reshapeSibling_grow_gives_buffer (delta_width listWidth : Int)
    (c : LLScrollListColumn) (rem : Int) (hd : ¬ delta_width < 0)
    (hok : c.headerCanResize = true → c.mWidth ≤ 0 ∨ MIN_COLUMN_WIDTH ≤ c.mWidth)
    (hb : shrinkBuffer (some c) ≤ delta_width) :
    (reshapeSibling delta_width listWidth c rem).column.mWidth
      = c.mWidth - shrinkBuffer (some c) := by
  rw [reshapeSibling_grow_width _ _ _ _ hd]
  unfold shrinkBuffer llmax llmin LLScrollListColumn.getWidth MIN_COLUMN_WIDTH at *
  by_cases hres : c.headerCanResize = true
  · have := hok hres
    simp only [hres, if_true, true_and] at hb ⊢
    split <;> split <;> split at hb <;> omega
  · simp [hres]

theorem reshapeWalk_grow_total_clamped (delta_width listWidth : Int) (hd : 0 < delta_width) :
    ∀ (l : List (Option LLScrollListColumn)) (rem : Int),
      (∀ (k : Nat) (m : LLScrollListColumn), l[k]? = some (some m) →
        m.headerCanResize = true → m.mWidth ≤ 0 ∨ MIN_COLUMN_WIDTH ≤ m.mWidth) →
      rem + shrinkBufferSum l ≤ 0 → -delta_width ≤ rem →
      totalWidth (reshapeWalk delta_width listWidth l rem).1
        = totalWidth l - shrinkBufferSum l := by
  intro l
  induction l with
  | nil => intro rem _ _ _; simp [reshapeWalk, totalWidth, shrinkBufferSum]
  | cons a rest ih =>
    intro rem hok hsum hrem
    have hokr : ∀ (k : Nat) (m : LLScrollListColumn), rest[k]? = some (some m) →
        m.headerCanResize = true → m.mWidth ≤ 0 ∨ MIN_COLUMN_WIDTH ≤ m.mWidth :=
      fun k m hm => hok (k + 1) m (by simpa using hm)
    have hnn := shrinkBufferSum_nonneg rest
    rw [shrinkBufferSum_cons] at hsum ⊢
    cases a with
    | none =>
      have hb0 : shrinkBuffer none = 0 := rfl
      rw [hb0] at hsum ⊢
      have := ih rem hokr (by omega) hrem
      simp only [reshapeWalk, totalWidth_cons, this]
      omega
    | some c =>
      have hb := shrinkBuffer_nonneg (some c)
      have hs := reshapeSibling_grow_remaining delta_width listWidth c rem (by omega)
      have hwid := reshapeSibling_grow_gives_buffer delta_width listWidth c rem (by omega)
        (hok 0 c (by simp)) (by omega)
      simp only [reshapeWalk]
      split
      · rename_i hdone
        have h0 := hs.2.1 hdone
        simp only [totalWidth_cons, slotWidth, LLScrollListColumn.getWidth, hwid]
        omega
      · have := ih (reshapeSibling delta_width listWidth c rem).remaining_width hokr
          (by rw [hs.1]; omega) (by rw [hs.1]; omega)
        simp only [totalWidth_cons, slotWidth, LLScrollListColumn.getWidth, hwid, this]
        omega

theorem reshapeWalk_grow_total_single (delta_width listWidth : Int) (hd : 0 < delta_width) :
    ∀ (l : List (Option LLScrollListColumn)) (j : Nat) (n : LLScrollListColumn),
      l[j]? = some (some n) → n.headerCanResize = true →
      MIN_COLUMN_WIDTH + delta_width ≤ n.mWidth →
      (∀ (k : Nat) (m : LLScrollListColumn), k < j → l[k]? = some (some m) →
        shrinkBuffer (some m) = 0
        ∧ (m.headerCanResize = true → m.mWidth ≤ 0 ∨ MIN_COLUMN_WIDTH ≤ m.mWidth)) →
      totalWidth (reshapeWalk delta_width listWidth l (-delta_width)).1
          = totalWidth l - delta_width
      ∧ 0 ≤ (reshapeWalk delta_width listWidth l (-delta_width)).2 := by
  intro l
  induction l with
  | nil => intro j n hj; simp at hj
  | cons a rest ih =>
    intro j n hj hres hw hbefore
    cases j with
    | zero =>
      simp at hj
      subst hj
      have hs := reshapeSibling_grow_remaining delta_width listWidth n (-delta_width) (by omega)
      have hwid := reshapeSibling_grow_width delta_width listWidth n (-delta_width) (by omega)
      have hbuf : shrinkBuffer (some n) = n.mWidth - MIN_COLUMN_WIDTH := by
        simp only [shrinkBuffer, llmax, LLScrollListColumn.getWidth, if_pos hres]
        unfold MIN_COLUMN_WIDTH at *
        split <;> omega
      have hdone : (reshapeSibling delta_width listWidth n (-delta_width)).done = true := by
        by_contra hnd
        have := hs.2.2 (by simpa using hnd) hres
        omega
      have hpos : 0 < n.mWidth := by unfold MIN_COLUMN_WIDTH at hw; omega
      rw [if_pos ⟨hres, hpos⟩] at hwid
      have hmin : llmin (n.mWidth - MIN_COLUMN_WIDTH) delta_width = delta_width := by
        unfold llmin
        split <;> omega
      rw [hmin] at hwid
      simp only [reshapeWalk, hdone, if_true, totalWidth_cons, slotWidth,
        LLScrollListColumn.getWidth, hwid, hs.1]
      constructor <;> omega
    | succ j =>
      simp at hj
      have hrest := ih j n hj hres hw
        (fun k m hk hm => hbefore (k + 1) m (by omega) (by simpa using hm))
      cases a with
      | none =>
        simp only [reshapeWalk, totalWidth_cons]
        constructor
        · rw [hrest.1]; omega
        · exact hrest.2
      | some c =>
        obtain ⟨hb0, hok⟩ := hbefore 0 c (by omega) (by simp)
        have hs := reshapeSibling_grow_remaining delta_width listWidth c (-delta_width) (by omega)
        have hwid := reshapeSibling_grow_gives_buffer delta_width listWidth c (-delta_width)
          (by omega) hok (by omega)
        rw [hb0] at hs hwid
        have hnd : (reshapeSibling delta_width listWidth c (-delta_width)).done = false := by
          cases hdone : (reshapeSibling delta_width listWidth c (-delta_width)).done with
          | false => rfl
          | true =>
            have := hs.2.1 hdone
            omega
        have hrem : (reshapeSibling delta_width listWidth c (-delta_width)).remaining_width
            = -delta_width := by rw [hs.1]; omega
        simp only [reshapeWalk, hnd, Bool.false_eq_true, if_false, hrem, totalWidth_cons,
          slotWidth, LLScrollListColumn.getWidth, hwid]
        constructor
        · have := hrest.1; omega
        · exact hrest.2

theorem handleReshape_total (ctrl : LLScrollListCtrl) (i : Nat) (new_rect : LLRect)
    (by_user : Bool) (c : LLScrollListColumn) (h : LLScrollColumnHeader)
    (hcol : ctrl.getColumn (i : Int) = some c) (hidx : c.mIndex = (i : Int))
    (hhdr : c.mHeader = some h)
    (hne : new_rect.getWidth - h.getRect.getWidth ≠ 0)
    (hpad : ctrl.mColumnPadding = 0) (hwid : c.mWidth = h.getRect.getWidth) :
    ∃ ctrl1, handleReshape ctrl i new_rect by_user = some ctrl1
      ∧ totalWidth ctrl1.mColumnsIndexed
          = totalWidth ctrl.mColumnsIndexed
            + (totalWidth (reshapeWalk (new_rect.getWidth - h.getRect.getWidth)
                  ctrl.mItemListRectWidth (ctrl.mColumnsIndexed.drop (i + 1))
                  (-(new_rect.getWidth - h.getRect.getWidth))).1
                - totalWidth (ctrl.mColumnsIndexed.drop (i + 1)))
            + clampedDelta (new_rect.getWidth - h.getRect.getWidth)
                (reshapeWalk (new_rect.getWidth - h.getRect.getWidth)
                  ctrl.mItemListRectWidth (ctrl.mColumnsIndexed.drop (i + 1))
                  (-(new_rect.getWidth - h.getRect.getWidth))).2 := by
  obtain ⟨ctrl1, h1, h2, _, _⟩ :=
    handleReshape_columns_indexed ctrl i new_rect by_user c h hcol hidx hhdr hne
  obtain ⟨hilt, hci⟩ := getColumn_some_lt ctrl i c hcol
  have hs : ((i : Int) + 1).toNat = i + 1 := by omega
  have hself : (afterSiblings ctrl ((i : Int) + 1)
      (new_rect.getWidth - h.getRect.getWidth))[i]? = some (some c) := by
    unfold afterSiblings
    rw [hs, List.getElem?_append_left (by rw [List.length_take]; omega),
      List.getElem?_take_of_lt (by omega), hci]
  refine ⟨ctrl1, h1, ?_⟩
  rw [h2, totalWidth_set _ _ _ _ hself]
  have hsplit : totalWidth ctrl.mColumnsIndexed
      = totalWidth (ctrl.mColumnsIndexed.take (i + 1))
        + totalWidth (ctrl.mColumnsIndexed.drop (i + 1)) := by
    rw [← totalWidth_append, List.take_append_drop]
  unfold afterSiblings remainingAfterSiblings
  rw [hs, totalWidth_append, hsplit]
  simp only [slotWidth, LLScrollListColumn.getWidth, setWidthAndRelWidth_width]
  omega

/-- Width conservation in the cases where the walk balances.  Column padding is
0, the dragged column sits at its stored index and is as wide as its header
rectangle.  The sum of all column widths is the same before and after the call
when either (shrink by `X > 0`) some resizable column to the right has positive
width, or (grow by `X > 0`) no resizable column to the right has a width between
1 and 19 and either the total shrink buffer to the right is at most `X` or some
resizable column to the right is at least `20 + X` wide while every column
between it and the dragged one has no shrink buffer. -/
theorem handleReshape_total_width_conserved (ctrl : LLScrollListCtrl) (i : Nat)
    (new_rect : LLRect) (by_user : Bool) (c : LLScrollListColumn)
    (h : LLScrollColumnHeader) (X : Int)
    (hcol : ctrl.getColumn (i : Int) = some c) (hidx : c.mIndex = (i : Int))
    (hhdr : c.mHeader = some h)
    (hpad : ctrl.mColumnPadding = 0) (hwid : c.mWidth = h.getRect.getWidth)
    (hX : 0 < X)
    (hcase :
      (new_rect.getWidth = h.getRect.getWidth - X
        ∧ ∃ (j : Nat) (n : LLScrollListColumn), i < j ∧ ctrl.getColumn (j : Int) = some n
            ∧ n.headerCanResize = true ∧ 0 < n.mWidth)
      ∨ (new_rect.getWidth = h.getRect.getWidth + X
        ∧ (∀ (k : Nat) (m : LLScrollListColumn), i < k → ctrl.getColumn (k : Int) = some m →
            m.headerCanResize = true → m.mWidth ≤ 0 ∨ MIN_COLUMN_WIDTH ≤ m.mWidth)
        ∧ (shrinkBufferSum (ctrl.mColumnsIndexed.drop (i + 1)) ≤ X
          ∨ ∃ (j : Nat) (n : LLScrollListColumn), i < j ∧ ctrl.getColumn (j : Int) = some n
              ∧ n.headerCanResize = true ∧ MIN_COLUMN_WIDTH + X ≤ n.mWidth
              ∧ ∀ (k : Nat) (m : LLScrollListColumn), i < k → k < j →
                  ctrl.getColumn (k : Int) = some m → shrinkBuffer (some m) = 0))) :
    ∃ ctrl1, handleReshape ctrl i new_rect by_user = some ctrl1
      ∧ totalWidth ctrl1.mColumnsIndexed = totalWidth ctrl.mColumnsIndexed := by
  have hget : ∀ (k : Nat) (m : LLScrollListColumn),
      (ctrl.mColumnsIndexed.drop (i + 1))[k]? = some (some m) →
      ctrl.getColumn ((i + 1 + k : Nat) : Int) = some m := by
    intro k m hm
    rw [List.getElem?_drop] at hm
    rw [getColumn_natCast, hm]
    rfl
  rcases hcase with ⟨hrect, j, n, hij, hn, hres, hw⟩ | ⟨hrect, hok, hsrc⟩
  · have hδ : new_rect.getWidth - h.getRect.getWidth = -X := by omega
    obtain ⟨ctrl1, h1, h2⟩ := handleReshape_total ctrl i new_rect by_user c h hcol hidx hhdr
      (by omega) hpad hwid
    refine ⟨ctrl1, h1, ?_⟩
    obtain ⟨_, hcj⟩ := getColumn_some_lt ctrl j n hn
    have hj : i + 1 + (j - (i + 1)) = j := by omega
    have hwalk := reshapeWalk_shrink_total (-X) ctrl.mItemListRectWidth (by omega)
      (ctrl.mColumnsIndexed.drop (i + 1)) (- -X)
      ⟨j - (i + 1), n, by rw [List.getElem?_drop, hj]; exact hcj, hres, hw⟩
    rw [hδ] at h2
    rw [h2, hwalk]
    unfold clampedDelta
    rw [if_neg (by omega)]
    omega
  · have hδ : new_rect.getWidth - h.getRect.getWidth = X := by omega
    obtain ⟨ctrl1, h1, h2⟩ := handleReshape_total ctrl i new_rect by_user c h hcol hidx hhdr
      (by omega) hpad hwid
    refine ⟨ctrl1, h1, ?_⟩
    rw [hδ] at h2
    have hokl : ∀ (k : Nat) (m : LLScrollListColumn),
        (ctrl.mColumnsIndexed.drop (i + 1))[k]? = some (some m) →
        m.headerCanResize = true → m.mWidth ≤ 0 ∨ MIN_COLUMN_WIDTH ≤ m.mWidth :=
      fun k m hm => hok (i + 1 + k) m (by omega) (hget k m hm)
    rcases hsrc with hS | ⟨j, n, hij, hn, hres, hw, hbefore⟩
    · have hwalk := reshapeWalk_grow_total_clamped X ctrl.mItemListRectWidth hX
        (ctrl.mColumnsIndexed.drop (i + 1)) (-X) hokl (by omega) (by omega)
      have hcl := clampedDelta_grow ctrl i X hX
      have hs : ((i : Int) + 1).toNat = i + 1 := by omega
      unfold remainingAfterSiblings at hcl
      rw [hs] at hcl
      rw [h2, hwalk, hcl, min_eq_right hS]
      omega
    · obtain ⟨_, hcj⟩ := getColumn_some_lt ctrl j n hn
      have hj : i + 1 + (j - (i + 1)) = j := by omega
      have hwalk := reshapeWalk_grow_total_single X ctrl.mItemListRectWidth hX
        (ctrl.mColumnsIndexed.drop (i + 1)) (j - (i + 1)) n
        (by rw [List.getElem?_drop, hj]; exact hcj) hres hw
        (fun k m hk hm => ⟨hbefore (i + 1 + k) m (by omega) (by omega) (hget k m hm),
          hokl k m hm⟩)
      rw [h2, hwalk.1]
      unfold clampedDelta llmin
      rw [if_pos hX, if_neg (by have := hwalk.2; omega)]
      omega

/-- The balanced shrink at the scenario of the specification: A = 200 shrunk by
50 next to the resizable B = 280 keeps the total. -/
theorem handleReshape_total_width_conserved_witness :
    ∃ ctrl1, handleReshape scenarioList 0 ⟨0, 20, 150, 0⟩ true = some ctrl1
      ∧ totalWidth ctrl1.mColumnsIndexed = totalWidth scenarioList.mColumnsIndexed :=
  handleReshape_total_width_conserved scenarioList 0 ⟨0, 20, 150, 0⟩ true
    (sampleColumn "A" 0 200 (2 / 5) true) (sampleHeader 200 true) 50 rfl rfl rfl rfl rfl
    (by decide)
    (Or.inl ⟨by decide, 1, sampleColumn "B" 1 280 (-1) true, by decide, rfl, rfl, by decide⟩)

/-- A shrink with nothing to absorb it: with padding 0 and A as wide as its
header rectangle, shrinking A = 200 by 50 when no column to its right is
resizable leaves B at 280 and A at 150, so the total width drops from 480 to
430. -/
theorem handleReshape_shrink_unabsorbed_example :
    lastResizableList.mColumnPadding = 0
    ∧ (lastResizableList.getColumn 0).map (fun c => c.mWidth) = some 200
    ∧ ((lastResizableList.getColumn 0).bind (fun c => c.mHeader)).map
        (fun h => h.getRect.getWidth) = some 200
    ∧ totalWidth lastResizableList.mColumnsIndexed = 480
    ∧ (handleReshape lastResizableList 0 ⟨0, 20, 150, 0⟩ true).map
        (fun s => s.mColumnsIndexed.map slotWidth) = some [150, 280]
    ∧ (handleReshape lastResizableList 0 ⟨0, 20, 150, 0⟩ true).map
        (fun s => totalWidth s.mColumnsIndexed) = some 430 := by
  refine ⟨rfl, rfl, rfl, by decide, ?_, ?_⟩ <;> decide!

/-! ## `canResize` -/

/-- C6.  For every header state, `canResize` is true exactly when the header is
visible and either its has-resizable-element flag or its column's dynamic-width
flag is set; in particular it is false for every hidden header. -/
theorem canResize_iff (hdr : LLScrollColumnHeader) (mColumn : LLScrollListColumn) :
    (hdr.canResize mColumn = true
      ↔ hdr.mVisible = true
        ∧ (hdr.mHasResizableElement = true ∨ mColumn.mDynamicWidth = true))
    ∧ (hdr.mVisible = false → hdr.canResize mColumn = false) := by
  unfold LLScrollColumnHeader.canResize
  constructor
  · simp
  · intro hv
    simp [hv]

/-! ## Construction from a configuration record -/

/-- C10 (sizing mode on construction).  For every record: when it has a
`relwidth` that is positive, the column's relative width is `min(relwidth, 1)`,
it is not dynamic, its width stays at the initial 0 and `setWidth` is not called
(no call reaches the parent list); otherwise the relative width is -1, the
dynamic flag is the record's `dynamicwidth` (false when absent), and the record's
width (0 when absent) is applied through `setWidth` exactly when the column is
not dynamic.  Hence no constructed column is dynamic with a positive relative
width, and a positive relative width is at most 1. -/
theorem fromLLSD_sizing_mode (sd : LLSD) :
    (∀ r : ℚ, sd.relwidth = some r → 0 < r →
      (LLScrollListColumn.fromLLSD sd).1.mRelWidth = min r 1
      ∧ (LLScrollListColumn.fromLLSD sd).1.mDynamicWidth = false
      ∧ (LLScrollListColumn.fromLLSD sd).1.mWidth = 0
      ∧ (LLScrollListColumn.fromLLSD sd).2 = [])
    ∧ ((∀ r : ℚ, sd.relwidth = some r → ¬ 0 < r) →
      (LLScrollListColumn.fromLLSD sd).1.mRelWidth = -1
      ∧ (LLScrollListColumn.fromLLSD sd).1.mDynamicWidth = sd.dynamicwidth.getD false
      ∧ ((LLScrollListColumn.fromLLSD sd).1.mDynamicWidth = true →
          (LLScrollListColumn.fromLLSD sd).1.mWidth = 0
          ∧ (LLScrollListColumn.fromLLSD sd).2 = [])
      ∧ ((LLScrollListColumn.fromLLSD sd).1.mDynamicWidth = false →
          (LLScrollListColumn.fromLLSD sd).1.mWidth = sd.width.getD 0
          ∧ ∃ col, (LLScrollListColumn.fromLLSD sd).2
              = [ParentCall.updateStaticColumnWidth col (sd.width.getD 0)]))
    ∧ ¬ ((LLScrollListColumn.fromLLSD sd).1.mDynamicWidth = true
          ∧ 0 < (LLScrollListColumn.fromLLSD sd).1.mRelWidth)
    ∧ (0 < (LLScrollListColumn.fromLLSD sd).1.mRelWidth →
          (LLScrollListColumn.fromLLSD sd).1.mRelWidth ≤ 1) := by
  obtain ⟨name, label, sort, sort_ascending, relwidth, width, dynamicwidth, halign⟩ := sd
  have hpos : ∀ r : ℚ, 0 < r →
      (LLScrollListColumn.fromLLSD
        ⟨name, label, sort, sort_ascending, some r, width, dynamicwidth, halign⟩).1.mRelWidth
          = min r 1
      ∧ (LLScrollListColumn.fromLLSD
        ⟨name, label, sort, sort_ascending, some r, width, dynamicwidth, halign⟩).1.mDynamicWidth
          = false
      ∧ (LLScrollListColumn.fromLLSD
        ⟨name, label, sort, sort_ascending, some r, width, dynamicwidth, halign⟩).1.mWidth = 0
      ∧ (LLScrollListColumn.fromLLSD
        ⟨name, label, sort, sort_ascending, some r, width, dynamicwidth, halign⟩).2 = [] := by
    intro r hr
    by_cases h1 : 1 < r
    · have hm : min r 1 = 1 := min_eq_right (le_of_lt h1)
      cases halign <;> simp [LLScrollListColumn.fromLLSD, hr, h1, hm]
    · have hm : min r 1 = r := min_eq_left (not_lt.mp h1)
      cases halign <;> simp [LLScrollListColumn.fromLLSD, hr, h1, hm]
  have hneg : (∀ r : ℚ, relwidth = some r → ¬ 0 < r) →
      (LLScrollListColumn.fromLLSD
        ⟨name, label, sort, sort_ascending, relwidth, width, dynamicwidth, halign⟩).1.mRelWidth
          = -1
      ∧ (LLScrollListColumn.fromLLSD
        ⟨name, label, sort, sort_ascending, relwidth, width, dynamicwidth, halign⟩).1.mDynamicWidth
          = dynamicwidth.getD false
      ∧ ((dynamicwidth.getD false = true) →
        (LLScrollListColumn.fromLLSD
          ⟨name, label, sort, sort_ascending, relwidth, width, dynamicwidth, halign⟩).1.mWidth = 0
        ∧ (LLScrollListColumn.fromLLSD
          ⟨name, label, sort, sort_ascending, relwidth, width, dynamicwidth, halign⟩).2 = [])
      ∧ ((dynamicwidth.getD false = false) →
        (LLScrollListColumn.fromLLSD
          ⟨name, label, sort, sort_ascending, relwidth, width, dynamicwidth, halign⟩).1.mWidth
            = width.getD 0
        ∧ ∃ col, (LLScrollListColumn.fromLLSD
          ⟨name, label, sort, sort_ascending, relwidth, width, dynamicwidth, halign⟩).2
            = [ParentCall.updateStaticColumnWidth col (width.getD 0)]) := by
    intro hr
    have hcond : (relwidth.isSome && decide (relwidth.getD 0 > 0)) = false := by
      cases relwidth with
      | none => rfl
      | some r => simpa using hr r rfl
    rcases dynamicwidth with _ | _ | _ <;> cases halign <;>
      simp [LLScrollListColumn.fromLLSD, hcond, LLScrollListColumn.setWidth]
  refine ⟨?_, ?_, ?_, ?_⟩
  · intro r hr hpos'
    simp only at hr
    subst hr
    exact hpos r hpos'
  · intro hr
    obtain ⟨h1, h2, h3, h4⟩ := hneg hr
    exact ⟨h1, h2, fun hd => h3 (by rw [← h2]; exact hd), fun hd => h4 (by rw [← h2]; exact hd)⟩
  · rintro ⟨hd, hrel⟩
    by_cases hr : ∃ r : ℚ, relwidth = some r ∧ 0 < r
    · obtain ⟨r, hr1, hr2⟩ := hr
      subst hr1
      rw [(hpos r hr2).2.1] at hd
      exact absurd hd (by simp)
    · have := (hneg (fun r h1 h2 => hr ⟨r, h1, h2⟩)).1
      rw [this] at hrel
      norm_num at hrel
  · intro hrel
    by_cases hr : ∃ r : ℚ, relwidth = some r ∧ 0 < r
    · obtain ⟨r, hr1, hr2⟩ := hr
      subst hr1
      rw [(hpos r hr2).1]
      exact min_le_right r 1
    · have := (hneg (fun r h1 h2 => hr ⟨r, h1, h2⟩)).1
      rw [this] at hrel
      norm_num at hrel

/-! ## Edge snapping -/

theorem findSnapEdgeLoop_unchanged (ctrl : LLScrollListCtrl) (mouse_dir : LLCoordGL)
    (threshold : Int) (snap_rect : LLRect) (new_edge_val : Int) :
    ∀ (fuel visited : Nat) (deltas : List Int) (next : Option LLScrollListColumn)
      (res : SnapResult),
      findSnapEdgeLoop ctrl mouse_dir threshold snap_rect new_edge_val deltas fuel visited next
        = some res →
      (∀ d ∈ res.snap_deltas, mouse_dir.mX * d ≤ 0) →
      res.new_edge_val = new_edge_val := by
  intro fuel
  induction fuel with
  | zero =>
    intro visited deltas next res hres _
    cases next with
    | none =>
      simp only [findSnapEdgeLoop, Option.some.injEq] at hres
      rw [← hres]
    | some c => simp [findSnapEdgeLoop] at hres
  | succ fuel ih =>
    intro visited deltas next res hres hdir
    cases next with
    | none =>
      simp only [findSnapEdgeLoop, Option.some.injEq] at hres
      rw [← hres]
    | some c =>
      cases hh : c.mHeader with
      | none =>
        simp only [findSnapEdgeLoop, hh] at hres
        exact ih _ _ _ res hres hdir
      | some hdr =>
        simp only [findSnapEdgeLoop, hh] at hres
        split at hres
        · rename_i hcond
          simp only [Option.some.injEq] at hres
          have := hdir ((hdr.getSnapRect.mRight - c.mMaxContentWidth) - snap_rect.mRight)
            (by rw [← hres]; simp)
          omega
        · simp only [Option.some.injEq] at hres
          rw [← hres]

theorem findSnapEdgeLoop_returns (ctrl : LLScrollListCtrl) (hidx : ctrl.indexed)
    (mouse_dir : LLCoordGL) (threshold : Int) (snap_rect : LLRect) (new_edge_val : Int) :
    ∀ (fuel visited : Nat) (deltas : List Int) (p : Int),
      (0 ≤ p → (ctrl.mColumnsIndexed.length : Int) - p ≤ (fuel : Int)) →
      ∃ res, findSnapEdgeLoop ctrl mouse_dir threshold snap_rect new_edge_val deltas fuel
        visited (ctrl.getColumn p) = some res := by
  intro fuel
  induction fuel with
  | zero =>
    intro visited deltas p hp
    cases hc : ctrl.getColumn p with
    | none => exact ⟨⟨new_edge_val, deltas, visited⟩, by simp [findSnapEdgeLoop]⟩
    | some c =>
      exfalso
      rcases lt_or_le p 0 with hneg | hpos
      · rw [getColumn_neg ctrl p hneg] at hc
        simp at hc
      · obtain ⟨k, rfl⟩ : ∃ k : Nat, p = (k : Int) := ⟨p.toNat, by omega⟩
        have := (getColumn_some_lt ctrl k c hc).1
        have := hp hpos
        omega
  | succ fuel ih =>
    intro visited deltas p hp
    cases hc : ctrl.getColumn p with
    | none => exact ⟨⟨new_edge_val, deltas, visited⟩, by simp [findSnapEdgeLoop]⟩
    | some c =>
      have hci := hidx p c hc
      have hpos : 0 ≤ p := by
        by_contra hneg
        rw [getColumn_neg ctrl p (by omega)] at hc
        simp at hc
      have := hp hpos
      cases hh : c.mHeader with
      | none =>
        simp only [findSnapEdgeLoop, hh, hci]
        exact ih _ _ (p + 1) (fun _ => by omega)
      | some hdr =>
        simp only [findSnapEdgeLoop, hh]
        split <;> exact ⟨_, rfl⟩

/-- C7 (snap needs a matching drag direction).  Whatever the header state,
threshold and drag direction, whenever `findSnapEdge` (right edge) returns and
the drag direction's x component times each snap delta the call computed is at
most 0, `new_edge_val` is returned unmodified, however small the snap delta is.
When every column of the list stores its own position as its index, fuel equal
to the number of columns is enough for the call to return. -/
theorem findSnapEdge_direction_disagrees (self : LLScrollColumnHeader)
    (mColumn : LLScrollListColumn) (ctrl : LLScrollListCtrl) (new_edge_val : Int)
    (mouse_dir : LLCoordGL) (snap_type : ESnapType) (threshold padding : Int) :
    (∀ (fuel : Nat) (res : SnapResult),
      self.findSnapEdge fuel mColumn ctrl new_edge_val mouse_dir ESnapEdge.SNAP_RIGHT
        snap_type threshold padding = some res →
      (∀ d ∈ res.snap_deltas, mouse_dir.mX * d ≤ 0) →
      res.new_edge_val = new_edge_val)
    ∧ (ctrl.indexed →
      ∃ res, self.findSnapEdge ctrl.mColumnsIndexed.length mColumn ctrl new_edge_val
        mouse_dir ESnapEdge.SNAP_RIGHT snap_type threshold padding = some res) := by
  constructor
  · intro fuel res hres hdir
    unfold LLScrollColumnHeader.findSnapEdge at hres
    simp only at hres
    split at hres
    · rename_i hcond
      simp only [Option.some.injEq] at hres
      have := hdir (mColumn.mMaxContentWidth - self.getSnapRect.getWidth)
        (by rw [← hres]; simp)
      omega
    · exact findSnapEdgeLoop_unchanged _ _ _ _ _ _ _ _ _ res hres hdir
  · intro hidx
    unfold LLScrollColumnHeader.findSnapEdge
    simp only
    split
    · exact ⟨_, rfl⟩
    · exact findSnapEdgeLoop_returns ctrl hidx _ _ _ _ _ _ _ _ (fun _ => by omega)

/-- C7 at a concrete list: A is 100 wide with content 105 wide, the header of B
ends at 200 with content 95 wide, so both snap deltas are 5, within the threshold
min(16, 10); dragging to the left leaves the proposed edge 98 as it is. -/
theorem findSnapEdge_direction_disagrees_witness :
    (sampleHeader 100 true).findSnapEdge 2
        { sampleColumn "A" 0 100 (-1) true with mMaxContentWidth := 105 } snapList 98
        ⟨-1, 0⟩ ESnapEdge.SNAP_RIGHT ESnapType.SNAP_PARENT 16 0 = some ⟨98, [5, 5], 1⟩
    ∧ (⟨98, [5, 5], 1⟩ : SnapResult).new_edge_val = 98 :=
  ⟨by decide,
    (findSnapEdge_direction_disagrees (sampleHeader 100 true)
      { sampleColumn "A" 0 100 (-1) true with mMaxContentWidth := 105 } snapList 98
      ⟨-1, 0⟩ ESnapType.SNAP_PARENT 16 0).1 2 ⟨98, [5, 5], 1⟩ (by decide) (by decide)⟩

/-! ## Resize handles -/

theorem countResizableLoop_eq :
    ∀ (fuel k : Nat) (ctrl : LLScrollListCtrl) (n : Int),
      fuel + k = ctrl.mColumnsIndexed.length →
      (∀ o ∈ ctrl.mColumnsIndexed, o ≠ none) →
      countResizableLoop fuel (k : Int) ctrl n
        = some (n + (resizableCount (ctrl.mColumnsIndexed.drop k) : Int)) := by
  intro fuel
  induction fuel with
  | zero =>
    intro k ctrl n hlen _
    simp [countResizableLoop, List.drop_eq_nil_of_le (show ctrl.mColumnsIndexed.length ≤ k by omega),
      resizableCount]
  | succ fuel ih =>
    intro k ctrl n hlen hall
    have hk : k < ctrl.mColumnsIndexed.length := by omega
    have hcast : ((k : Int) + 1) = ((k + 1 : Nat) : Int) := by push_cast; rfl
    have hget : ctrl.getColumn (k : Int) = ctrl.mColumnsIndexed[k] := by
      rw [getColumn_natCast, List.getElem?_eq_getElem hk]; rfl
    rw [countResizableLoop, hget, List.drop_eq_getElem_cons hk]
    cases hc : ctrl.mColumnsIndexed[k] with
    | none => exact absurd hc (hall _ (List.getElem_mem hk))
    | some c =>
      simp only [hcast]
      rw [ih (k + 1) ctrl _ (by omega) hall]
      simp only [resizableCount, List.countP_cons, slotResizable]
      split
      · simp; omega
      · simp

theorem enableResizeBarsLoop_eq_walk (num_resizable_columns : Int) :
    ∀ (fuel k : Nat) (ctrl : LLScrollListCtrl) (e : Int),
      fuel + k = ctrl.mColumnsIndexed.length →
      (enableResizeBarsLoop num_resizable_columns fuel (k : Int) ctrl e).map
          (fun s => s.mColumnsIndexed)
        = (enableWalk num_resizable_columns (ctrl.mColumnsIndexed.drop k) e).map
          (fun l => ctrl.mColumnsIndexed.take k ++ l) := by
  intro fuel
  induction fuel with
  | zero =>
    intro k ctrl e hlen
    have hk : ctrl.mColumnsIndexed.length ≤ k := by omega
    simp [enableResizeBarsLoop, List.drop_eq_nil_of_le hk, List.take_of_length_le hk,
      enableWalk]
  | succ fuel ih =>
    intro k ctrl e hlen
    have hk : k < ctrl.mColumnsIndexed.length := by omega
    have hcast : ((k : Int) + 1) = ((k + 1 : Nat) : Int) := by push_cast; rfl
    have hget : ctrl.getColumn (k : Int) = ctrl.mColumnsIndexed[k] := by
      rw [getColumn_natCast, List.getElem?_eq_getElem hk]; rfl
    have htake : ctrl.mColumnsIndexed.take (k + 1)
        = ctrl.mColumnsIndexed.take k ++ [ctrl.mColumnsIndexed[k]] := by
      rw [List.take_succ, List.getElem?_eq_getElem hk]; rfl
    rw [enableResizeBarsLoop, hget, List.drop_eq_getElem_cons hk]
    cases hc : ctrl.mColumnsIndexed[k] with
    | none => simp [enableWalk]
    | some c =>
      cases hh : c.mHeader with
      | none =>
        simp only [enableWalk, hh, hcast]
        rw [ih (k + 1) ctrl e (by omega), htake, hc, Option.map_map]
        congr 1
        funext l
        simp
      | some hdr =>
        simp only [enableWalk, hh, hcast]
        rw [ih (k + 1) _ _ (by rw [putColumn_natCast, List.length_set]; omega),
          putColumn_natCast, take_succ_set _ _ _ hk,
          List.drop_set_of_lt _ _ (Nat.lt_succ_self k), Option.map_map]
        congr 1
        funext l
        simp

theorem resizableCount_cons (c : LLScrollListColumn)
    (rest : List (Option LLScrollListColumn)) :
    resizableCount (some c :: rest)
      = resizableCount rest + (if c.headerCanResize = true then 1 else 0) := by
  simp [resizableCount, List.countP_cons, slotResizable]

theorem enableWalk_spec (N : Int) :
    ∀ (l : List (Option LLScrollListColumn)) (e : Int),
      (∀ o ∈ l, ∃ c hdr, o = some c ∧ c.mHeader = some hdr) →
      ((1 ≤ resizableCount l ∧ e = N - (resizableCount l : Int) ∧ 0 ≤ e)
        ∨ (resizableCount l = 0 ∧ e = max 0 (N - 1))) →
      ∃ l1, enableWalk N l e = some l1
        ∧ (∀ (k : Nat) (c : LLScrollListColumn), l[k]? = some (some c) →
            ∃ c1 hdr1, l1[k]? = some (some c1) ∧ c1.mHeader = some hdr1
              ∧ (hdr1.mResizeBarEnabled = true
                  ↔ c.headerCanResize = true ∧ 1 ≤ resizableCount (l.drop (k + 1))))
        ∧ enabledCount l1 = resizableCount l - 1 := by
  intro l
  induction l with
  | nil =>
    intro e _ _
    exact ⟨[], rfl, fun k c hk => by simp at hk, by simp [enabledCount, resizableCount]⟩
  | cons a rest ih =>
    intro e hall hinv
    obtain ⟨c, hdr, rfl, hh⟩ := hall a (List.mem_cons_self _ _)
    have hallr : ∀ o ∈ rest, ∃ c hdr, o = some c ∧ c.mHeader = some hdr :=
      fun o ho => hall o (List.mem_cons_of_mem _ ho)
    have hcr : c.headerCanResize = hdr.canResize c := by
      simp [LLScrollListColumn.headerCanResize, hh]
    rw [resizableCount_cons] at hinv
    by_cases hres : c.headerCanResize = true
    · -- the head is resizable
      rw [if_pos hres] at hinv
      have hinv1 : e = N - ((resizableCount rest : Int) + 1) ∧ 0 ≤ e := by
        rcases hinv with ⟨_, h2, h3⟩ | ⟨h1, _⟩
        · exact ⟨by rw [h2]; push_cast; ring, h3⟩
        · omega
      by_cases hmore : 1 ≤ resizableCount rest
      · -- another resizable column follows: the handle is enabled
        have hen : (decide (N ≥ 2) && decide (e < N - 1) && hdr.canResize c) = true := by
          rw [← hcr, hres]
          simp only [Bool.and_true, Bool.and_eq_true, decide_eq_true_eq]
          omega
        obtain ⟨l1, hl1, hpt, hcnt⟩ := ih (e + 1) hallr (Or.inl ⟨hmore, by omega, by omega⟩)
        refine ⟨some { c with mHeader := some (hdr.enableResizeBar true) } :: l1, ?_, ?_, ?_⟩
        · simp only [enableWalk, hh, hen, if_true, hl1, Option.map_some']
        · intro k m hk
          cases k with
          | zero =>
            simp at hk
            subst hk
            exact ⟨{ c with mHeader := some (hdr.enableResizeBar true) },
              hdr.enableResizeBar true, by simp, rfl, by
              simp [LLScrollColumnHeader.enableResizeBar, hres, hmore]⟩
          | succ k =>
            obtain ⟨c1, hdr1, h1, h2, h3⟩ := hpt k m (by simpa using hk)
            exact ⟨c1, hdr1, by simpa using h1, h2, by simpa using h3⟩
        · rw [resizableCount_cons, if_pos hres]
          simp only [enabledCount, List.countP_cons, slotEnabled,
            LLScrollColumnHeader.enableResizeBar] at hcnt ⊢
          simp only [if_true]
          omega
      · -- the head is the last resizable column: the handle is disabled
        have hr0 : resizableCount rest = 0 := by omega
        have hen : (decide (N ≥ 2) && decide (e < N - 1) && hdr.canResize c) = false := by
          rw [← hcr, hres]
          simp only [Bool.and_true, Bool.and_eq_false_imp, decide_eq_true_eq,
            decide_eq_false_iff_not]
          intro _
          omega
        obtain ⟨l1, hl1, hpt, hcnt⟩ := ih e hallr (Or.inr ⟨hr0, by
          rw [max_eq_right (by omega)]; omega⟩)
        refine ⟨some { c with mHeader := some (hdr.enableResizeBar false) } :: l1, ?_, ?_, ?_⟩
        · simp only [enableWalk, hh, hen, Bool.false_eq_true, if_false, hl1, Option.map_some']
        · intro k m hk
          cases k with
          | zero =>
            simp at hk
            subst hk
            exact ⟨{ c with mHeader := some (hdr.enableResizeBar false) },
              hdr.enableResizeBar false, by simp, rfl, by
              simp [LLScrollColumnHeader.enableResizeBar, hr0]⟩
          | succ k =>
            obtain ⟨c1, hdr1, h1, h2, h3⟩ := hpt k m (by simpa using hk)
            exact ⟨c1, hdr1, by simpa using h1, h2, by simpa using h3⟩
        · rw [resizableCount_cons, if_pos hres]
          simp only [enabledCount, List.countP_cons, slotEnabled,
            LLScrollColumnHeader.enableResizeBar] at hcnt ⊢
          simp only [Bool.false_eq_true, if_false]
          omega
    · -- the head is not resizable: the handle is disabled
      rw [if_neg hres] at hinv
      have hen : (decide (N ≥ 2) && decide (e < N - 1) && hdr.canResize c) = false := by
        rw [← hcr]
        simp [hres]
      obtain ⟨l1, hl1, hpt, hcnt⟩ := ih e hallr (by simpa using hinv)
      refine ⟨some { c with mHeader := some (hdr.enableResizeBar false) } :: l1, ?_, ?_, ?_⟩
      · simp only [enableWalk, hh, hen, Bool.false_eq_true, if_false, hl1, Option.map_some']
      · intro k m hk
        cases k with
        | zero =>
          simp at hk
          subst hk
          exact ⟨{ c with mHeader := some (hdr.enableResizeBar false) },
            hdr.enableResizeBar false, by simp, rfl, by
            simp [LLScrollColumnHeader.enableResizeBar, hres]⟩
        | succ k =>
          obtain ⟨c1, hdr1, h1, h2, h3⟩ := hpt k m (by simpa using hk)
          exact ⟨c1, hdr1, by simpa using h1, h2, by simpa using h3⟩
      · rw [resizableCount_cons, if_neg hres]
        simp only [enabledCount, List.countP_cons, slotEnabled,
          LLScrollColumnHeader.enableResizeBar] at hcnt ⊢
        simp only [Bool.false_eq_true, if_false]
        omega

theorem resizableCount_pos_iff (l : List (Option LLScrollListColumn)) :
    1 ≤ resizableCount l
      ↔ ∃ (j : Nat) (n : LLScrollListColumn),
          l[j]? = some (some n) ∧ n.headerCanResize = true := by
  unfold resizableCount
  rw [Nat.succ_le_iff, List.countP_pos_iff]
  constructor
  · rintro ⟨o, ho, hp⟩
    cases o with
    | none => simp [slotResizable] at hp
    | some n =>
      obtain ⟨j, hj⟩ := List.mem_iff_getElem?.mp ho
      exact ⟨j, n, hj, by simpa [slotResizable] using hp⟩
  · rintro ⟨j, n, hj, hn⟩
    exact ⟨some n, List.mem_iff_getElem?.mpr ⟨j, hj⟩, by simpa [slotResizable] using hn⟩

/-- C5 (resize handles).  In a list in which every column slot holds a column
with a header, `updateResizeBars` returns, and afterwards the resize handle of a
header is enabled if and only if that header can resize and some column at a
higher index can resize too (it is not the last resizable column).  The number
of enabled handles is the number of resizable columns minus one, and zero when
there is no resizable column. -/
theorem updateResizeBars_enabled_iff (ctrl : LLScrollListCtrl)
    (hall : ∀ o ∈ ctrl.mColumnsIndexed, ∃ c hdr, o = some c ∧ c.mHeader = some hdr) :
    ∃ ctrl1, updateResizeBars ctrl = some ctrl1
      ∧ (∀ (k : Nat) (c : LLScrollListColumn), ctrl.getColumn (k : Int) = some c →
          ∃ c1 hdr1, ctrl1.getColumn (k : Int) = some c1 ∧ c1.mHeader = some hdr1
            ∧ (hdr1.mResizeBarEnabled = true
                ↔ c.headerCanResize = true
                  ∧ ∃ (j : Nat) (n : LLScrollListColumn), k < j
                      ∧ ctrl.getColumn (j : Int) = some n ∧ n.headerCanResize = true))
      ∧ enabledCount ctrl1.mColumnsIndexed = resizableCount ctrl.mColumnsIndexed - 1 := by
  have hnn : ∀ o ∈ ctrl.mColumnsIndexed, o ≠ none := by
    intro o ho
    obtain ⟨c, _, rfl, _⟩ := hall o ho
    simp
  have hlen : ctrl.getNumColumns.toNat = ctrl.mColumnsIndexed.length := by
    unfold LLScrollListCtrl.getNumColumns
    omega
  have hcount := countResizableLoop_eq ctrl.mColumnsIndexed.length 0 ctrl 0 (by omega) hnn
  have hloop := enableResizeBarsLoop_eq_walk (resizableCount ctrl.mColumnsIndexed : Int)
    ctrl.mColumnsIndexed.length 0 ctrl 0 (by omega)
  simp only [Nat.cast_zero, List.drop_zero, zero_add, List.take_zero, List.nil_append]
    at hcount hloop
  obtain ⟨l1, hl1, hpt, hcnt⟩ := enableWalk_spec (resizableCount ctrl.mColumnsIndexed : Int)
    ctrl.mColumnsIndexed 0 hall (by
      by_cases hr : 1 ≤ resizableCount ctrl.mColumnsIndexed
      · left; exact ⟨hr, by omega, by omega⟩
      · right
        have h0 : resizableCount ctrl.mColumnsIndexed = 0 := by omega
        exact ⟨h0, by rw [h0]; rfl⟩)
  rw [hl1] at hloop
  cases hres : enableResizeBarsLoop (resizableCount ctrl.mColumnsIndexed : Int)
      ctrl.mColumnsIndexed.length 0 ctrl 0 with
  | none => rw [hres] at hloop; simp at hloop
  | some ctrl1 =>
    rw [hres] at hloop
    have hcols : ctrl1.mColumnsIndexed = l1 := by simpa using hloop
    refine ⟨ctrl1, ?_, ?_, ?_⟩
    · simp only [updateResizeBars, hlen, hcount, hres]
    · intro k c hc
      obtain ⟨_, hck⟩ := getColumn_some_lt ctrl k c hc
      obtain ⟨c1, hdr1, h1, h2, h3⟩ := hpt k c hck
      refine ⟨c1, hdr1, by rw [getColumn_natCast, hcols, h1]; rfl, h2, ?_⟩
      rw [h3, resizableCount_pos_iff]
      constructor
      · rintro ⟨hcr, j, n, hj, hn⟩
        rw [List.getElem?_drop] at hj
        exact ⟨hcr, k + 1 + j, n, by omega, by rw [getColumn_natCast, hj]; rfl, hn⟩
      · rintro ⟨hcr, j, n, hkj, hj, hn⟩
        obtain ⟨_, hcj⟩ := getColumn_some_lt ctrl j n hj
        refine ⟨hcr, j - (k + 1), n, ?_, hn⟩
        rw [List.getElem?_drop]
        have : k + 1 + (j - (k + 1)) = j := by omega
        rw [this, hcj]
    · rw [hcols, hcnt]

/-- C5 at a concrete list of five columns with headers, A, C and D resizable:
the handles of A and C are enabled, that of D (the last resizable column) and
those of the non-resizable B and E are not, two handles in all. -/
theorem updateResizeBars_enabled_iff_witness :
    (∃ ctrl1, updateResizeBars handlesList = some ctrl1
      ∧ (∀ (k : Nat) (c : LLScrollListColumn), handlesList.getColumn (k : Int) = some c →
          ∃ c1 hdr1, ctrl1.getColumn (k : Int) = some c1 ∧ c1.mHeader = some hdr1
            ∧ (hdr1.mResizeBarEnabled = true
                ↔ c.headerCanResize = true
                  ∧ ∃ (j : Nat) (n : LLScrollListColumn), k < j
                      ∧ handlesList.getColumn (j : Int) = some n ∧ n.headerCanResize = true))
      ∧ enabledCount ctrl1.mColumnsIndexed = resizableCount handlesList.mColumnsIndexed - 1)
    ∧ (updateResizeBars handlesList).map (fun s => s.mColumnsIndexed.map slotEnabled)
        = some [true, false, true, false, false] :=
  ⟨updateResizeBars_enabled_iff handlesList (by
      intro o ho
      simp only [handlesList, sampleList, List.mem_cons, List.mem_singleton,
        List.not_mem_nil, or_false] at ho
      rcases ho with rfl | rfl | rfl | rfl | rfl <;> exact ⟨_, _, rfl, rfl⟩),
    by decide⟩

/-! ## `setWidth` -/

/-- C11.  For every column state and every integer `w`, `setWidth(w)` leaves the
column with width exactly `w` and every other field (relative width and dynamic
flag included) as it was, and it calls `updateStaticColumnWidth` on the parent
list, with this column as it is before the assignment and `w`, if and only if
the column is not dynamic and its relative width is not positive; it makes no
other call. -/
theorem setWidth_effect (self : LLScrollListColumn) (w : Int) :
    (self.setWidth w).1 = { self with mWidth := w }
    ∧ (self.setWidth w).1.mWidth = w
    ∧ (self.setWidth w).1.mRelWidth = self.mRelWidth
    ∧ (self.setWidth w).1.mDynamicWidth = self.mDynamicWidth
    ∧ ((self.setWidth w).2 = [ParentCall.updateStaticColumnWidth self w]
        ↔ (self.mDynamicWidth = false ∧ ¬ 0 < self.mRelWidth))
    ∧ ((self.setWidth w).2 = []
        ↔ ¬ (self.mDynamicWidth = false ∧ ¬ 0 < self.mRelWidth)) := by
  refine ⟨rfl, rfl, rfl, rfl, ?_, ?_⟩
  · unfold LLScrollListColumn.setWidth
    by_cases hd : self.mDynamicWidth = true <;> by_cases hr : 0 < self.mRelWidth <;>
      simp [hd, hr, not_le.mpr, not_lt.mp]
  · unfold LLScrollListColumn.setWidth
    by_cases hd : self.mDynamicWidth = true <;> by_cases hr : 0 < self.mRelWidth <;>
      simp [hd, hr, not_le.mpr, not_lt.mp]

/-- C14.  For every configuration record, the sorting key of the constructed
column is the record's `sort` string when the record has that field and the
column's name otherwise, and the sort direction is DESCENDING exactly when the
record has `sort_ascending` with a false value and ASCENDING in every other
case. -/
theorem fromLLSD_sort (sd : LLSD) :
    (∀ s : String, sd.sort = some s →
      (LLScrollListColumn.fromLLSD sd).1.mSortingColumn = s)
    ∧ (sd.sort = none →
      (LLScrollListColumn.fromLLSD sd).1.mSortingColumn
        = (LLScrollListColumn.fromLLSD sd).1.mName)
    ∧ (LLScrollListColumn.fromLLSD sd).1.mName = sd.name.getD ""
    ∧ (sd.sort_ascending = some false →
      (LLScrollListColumn.fromLLSD sd).1.mSortDirection = ESortDirection.DESCENDING)
    ∧ (sd.sort_ascending ≠ some false →
      (LLScrollListColumn.fromLLSD sd).1.mSortDirection = ESortDirection.ASCENDING) := by
  obtain ⟨name, label, sort, sort_ascending, relwidth, width, dynamicwidth, halign⟩ := sd
  have hfields : ∀ sd : LLSD,
      (LLScrollListColumn.fromLLSD sd).1.mSortingColumn
          = (if sd.sort.isSome then sd.sort.getD "" else sd.name.getD "")
      ∧ (LLScrollListColumn.fromLLSD sd).1.mName = sd.name.getD ""
      ∧ (LLScrollListColumn.fromLLSD sd).1.mSortDirection
          = (if sd.sort_ascending.isSome then
              (if sd.sort_ascending.getD false then ESortDirection.ASCENDING
               else ESortDirection.DESCENDING)
             else ESortDirection.ASCENDING) := by
    intro sd
    unfold LLScrollListColumn.fromLLSD LLScrollListColumn.setWidth
    simp only []
    split <;> split <;> (try split) <;> (try split) <;> exact ⟨rfl, rfl, rfl⟩
  obtain ⟨h1, h2, h3⟩ := hfields
    ⟨name, label, sort, sort_ascending, relwidth, width, dynamicwidth, halign⟩
  simp only at h1 h2 h3
  refine ⟨?_, ?_, h2, ?_, ?_⟩
  · intro s hs
    simp only at hs
    rw [h1, hs]
    rfl
  · intro hs
    simp only at hs
    rw [h1, h2, hs]
    rfl
  · intro hs
    simp only at hs
    rw [h3, hs]
    rfl
  · intro hs
    simp only at hs
    rw [h3]
    rcases sort_ascending with _ | _ | _
    · rfl
    · exact absurd rfl hs
    · rfl

/-- C17.  For every header, column and list state, `draw` sets a sort-arrow
overlay if and only if the column's label is not empty, the list reports itself
sorted and the list's sort column name equals the column's sorting key or its
name; the arrow is the up arrow when the list sorts ascending and the down arrow
otherwise; in every other case the overlay is cleared. -/
theorem draw_sort_arrow (self : LLScrollColumnHeader) (mColumn : LLScrollListColumn)
    (ctrl : LLScrollListCtrl) :
    ((mColumn.mLabel ≠ "" ∧ ctrl.mSorted = true
        ∧ (ctrl.mSortColumnName = mColumn.mSortingColumn
            ∨ ctrl.mSortColumnName = mColumn.mName)) →
      (self.draw mColumn ctrl).mImageOverlay
        = some (if ctrl.mSortAscending = true then "up_arrow.tga" else "down_arrow.tga"))
    ∧ (¬ (mColumn.mLabel ≠ "" ∧ ctrl.mSorted = true
        ∧ (ctrl.mSortColumnName = mColumn.mSortingColumn
            ∨ ctrl.mSortColumnName = mColumn.mName)) →
      (self.draw mColumn ctrl).mImageOverlay = none)
    ∧ ((self.draw mColumn ctrl).mImageOverlay ≠ none
        ↔ (mColumn.mLabel ≠ "" ∧ ctrl.mSorted = true
          ∧ (ctrl.mSortColumnName = mColumn.mSortingColumn
              ∨ ctrl.mSortColumnName = mColumn.mName))) := by
  have hempty : mColumn.mLabel.isEmpty = true ↔ mColumn.mLabel = "" := by
    simp [String.isEmpty_iff]
  have hcond : ((!mColumn.mLabel.isEmpty) && ctrl.mSorted
        && (ctrl.mSortColumnName == mColumn.mSortingColumn
            || ctrl.mSortColumnName == mColumn.mName)) = true
      ↔ (mColumn.mLabel ≠ "" ∧ ctrl.mSorted = true
          ∧ (ctrl.mSortColumnName = mColumn.mSortingColumn
              ∨ ctrl.mSortColumnName = mColumn.mName)) := by
    simp only [Bool.and_eq_true, Bool.or_eq_true, Bool.not_eq_true', beq_iff_eq, ne_eq,
      and_assoc]
    constructor
    · rintro ⟨h1, h2, h3⟩
      exact ⟨fun h => (by rw [hempty.mpr h] at h1; cases h1), h2, h3⟩
    · rintro ⟨h1, h2, h3⟩
      refine ⟨?_, h2, h3⟩
      cases he : mColumn.mLabel.isEmpty with
      | false => rfl
      | true => exact absurd (hempty.mp he) h1
  have hpos : (mColumn.mLabel ≠ "" ∧ ctrl.mSorted = true
        ∧ (ctrl.mSortColumnName = mColumn.mSortingColumn
            ∨ ctrl.mSortColumnName = mColumn.mName)) →
      (self.draw mColumn ctrl).mImageOverlay
        = some (if ctrl.mSortAscending = true then "up_arrow.tga" else "down_arrow.tga") := by
    intro h
    unfold LLScrollColumnHeader.draw
    simp only [hcond.mpr h, if_true]
  have hneg : ¬ (mColumn.mLabel ≠ "" ∧ ctrl.mSorted = true
        ∧ (ctrl.mSortColumnName = mColumn.mSortingColumn
            ∨ ctrl.mSortColumnName = mColumn.mName)) →
      (self.draw mColumn ctrl).mImageOverlay = none := by
    intro h
    have hf : ((!mColumn.mLabel.isEmpty) && ctrl.mSorted
        && (ctrl.mSortColumnName == mColumn.mSortingColumn
            || ctrl.mSortColumnName == mColumn.mName)) = false := by
      cases hb : ((!mColumn.mLabel.isEmpty) && ctrl.mSorted
        && (ctrl.mSortColumnName == mColumn.mSortingColumn
            || ctrl.mSortColumnName == mColumn.mName)) with
      | false => rfl
      | true => exact absurd (hcond.mp hb) h
    unfold LLScrollColumnHeader.draw
    simp only [hf, Bool.false_eq_true, if_false]
  refine ⟨hpos, hneg, ?_⟩
  constructor
  · intro h
    by_contra hc
    exact h (hneg hc)
  · intro h
    rw [hpos h]
    simp

/-! ## The snap search -/

theorem indexedFrom_getElem? :
    ∀ (l : List (Option LLScrollListColumn)) (start k : Nat) (c : LLScrollListColumn),
      indexedFrom start l = true → l[k]? = some (some c) →
      c.mIndex = ((start + k : Nat) : Int) := by
  intro l
  induction l with
  | nil => intro start k c _ hk; simp at hk
  | cons a rest ih =>
    intro start k c h hk
    cases k with
    | zero =>
      simp at hk
      subst hk
      simp only [indexedFrom, Bool.and_eq_true, decide_eq_true_eq] at h
      simpa using h.1
    | succ k =>
      have hrest : indexedFrom (start + 1) rest = true := by
        cases a with
        | none => simpa [indexedFrom] using h
        | some a0 =>
          simp only [indexedFrom, Bool.and_eq_true] at h
          exact h.2
      have := ih (start + 1) k c hrest (by simpa using hk)
      rw [this]
      congr 1
      omega

theorem indexed_of_indexedFrom (ctrl : LLScrollListCtrl)
    (h : indexedFrom 0 ctrl.mColumnsIndexed = true) : ctrl.indexed := by
  intro k c hc
  rcases lt_or_le k 0 with hneg | hpos
  · rw [getColumn_neg _ k hneg] at hc
    simp at hc
  · obtain ⟨j, rfl⟩ : ∃ j : Nat, k = (j : Int) := ⟨k.toNat, by omega⟩
    obtain ⟨_, hj⟩ := getColumn_some_lt ctrl j c hc
    have := indexedFrom_getElem? _ 0 j c h hj
    rw [this]
    congr 1
    omega

theorem findSnapEdgeLoop_bounds (ctrl : LLScrollListCtrl) (hidx : ctrl.indexed)
    (mouse_dir : LLCoordGL) (threshold : Int) (snap_rect : LLRect) (new_edge_val : Int) :
    ∀ (fuel visited : Nat) (deltas : List Int) (p : Int),
      (0 ≤ p → (ctrl.mColumnsIndexed.length : Int) - p ≤ (fuel : Int)) →
      ∃ res, findSnapEdgeLoop ctrl mouse_dir threshold snap_rect new_edge_val deltas fuel
          visited (ctrl.getColumn p) = some res
        ∧ res.visited ≤ visited + ((ctrl.mColumnsIndexed.length : Int) - p).toNat
        ∧ ∃ rest, res.snap_deltas = deltas ++ rest ∧ rest.length ≤ 1 := by
  intro fuel
  induction fuel with
  | zero =>
    intro visited deltas p hp
    cases hc : ctrl.getColumn p with
    | none =>
      exact ⟨⟨new_edge_val, deltas, visited⟩, by simp [findSnapEdgeLoop], by simp,
        [], by simp, by simp⟩
    | some c =>
      exfalso
      rcases lt_or_le p 0 with hneg | hpos
      · rw [getColumn_neg ctrl p hneg] at hc
        simp at hc
      · obtain ⟨k, rfl⟩ : ∃ k : Nat, p = (k : Int) := ⟨p.toNat, by omega⟩
        have := (getColumn_some_lt ctrl k c hc).1
        have := hp hpos
        omega
  | succ fuel ih =>
    intro visited deltas p hp
    cases hc : ctrl.getColumn p with
    | none =>
      exact ⟨⟨new_edge_val, deltas, visited⟩, by simp [findSnapEdgeLoop], by simp,
        [], by simp, by simp⟩
    | some c =>
      have hci := hidx p c hc
      have hpos : 0 ≤ p := by
        by_contra hneg
        rw [getColumn_neg ctrl p (by omega)] at hc
        simp at hc
      have hfuel := hp hpos
      obtain ⟨k, rfl⟩ : ∃ k : Nat, p = (k : Int) := ⟨p.toNat, by omega⟩
      have hklt := (getColumn_some_lt ctrl k c hc).1
      cases hh : c.mHeader with
      | none =>
        simp only [findSnapEdgeLoop, hh, hci]
        obtain ⟨res, h1, h2, h3⟩ := ih (visited + 1) deltas ((k : Int) + 1) (fun _ => by omega)
        exact ⟨res, h1, by omega, h3⟩
      | some hdr =>
        simp only [findSnapEdgeLoop, hh]
        split
        · exact ⟨_, rfl, by simp only; omega, [_], rfl, by simp⟩
        · exact ⟨_, rfl, by simp only; omega, [_], rfl, by simp⟩

/-- C18 (termination of the snap search).  In a list in which every column
stores its own position as its index, `findSnapEdge` returns as soon as its fuel
is at least `numColumns - index - 1` (truncated at 0); its `while` loop visits at
most that many columns; and besides the snap delta of the column's own content
width it computes at most one further snap delta, so it evaluates the snap
against at most one column. -/
theorem findSnapEdge_terminates (self : LLScrollColumnHeader)
    (mColumn : LLScrollListColumn) (ctrl : LLScrollListCtrl) (new_edge_val : Int)
    (mouse_dir : LLCoordGL) (snap_edge : ESnapEdge) (snap_type : ESnapType)
    (threshold padding : Int) (fuel : Nat)
    (hidx : ctrl.indexed)
    (hfuel : (ctrl.getNumColumns - mColumn.mIndex - 1).toNat ≤ fuel) :
    ∃ res, self.findSnapEdge fuel mColumn ctrl new_edge_val mouse_dir snap_edge snap_type
        threshold padding = some res
      ∧ res.visited ≤ (ctrl.getNumColumns - mColumn.mIndex - 1).toNat
      ∧ ∃ rest, res.snap_deltas
            = (mColumn.mMaxContentWidth - self.getSnapRect.getWidth) :: rest
          ∧ rest.length ≤ 1 := by
  unfold LLScrollListCtrl.getNumColumns at *
  unfold LLScrollColumnHeader.findSnapEdge
  simp only
  split
  · exact ⟨_, rfl, by simp, [], rfl, by simp⟩
  · obtain ⟨res, h1, h2, rest, h3, h4⟩ := findSnapEdgeLoop_bounds ctrl hidx mouse_dir
      (llmin threshold 10) self.getSnapRect new_edge_val fuel 0
      [mColumn.mMaxContentWidth - self.getSnapRect.getWidth] (mColumn.mIndex + 1)
      (fun _ => by omega)
    refine ⟨res, h1, ?_, rest, by simpa using h3, h4⟩
    have : (ctrl.mColumnsIndexed.length : Int) - (mColumn.mIndex + 1)
        = (ctrl.mColumnsIndexed.length : Int) - mColumn.mIndex - 1 := by ring
    rw [this] at h2
    omega

/-- C18 at a concrete list: from A (index 0) in a list of two columns the loop
visits one column, with fuel 1. -/
theorem findSnapEdge_terminates_witness :
    ∃ res, (sampleHeader 100 true).findSnapEdge 1
        { sampleColumn "A" 0 100 (-1) true with mMaxContentWidth := 105 } snapList 98
        ⟨-1, 0⟩ ESnapEdge.SNAP_RIGHT ESnapType.SNAP_PARENT 16 0 = some res
      ∧ res.visited ≤ 1
      ∧ ∃ rest, res.snap_deltas = 5 :: rest ∧ rest.length ≤ 1 :=
  findSnapEdge_terminates (sampleHeader 100 true)
    { sampleColumn "A" 0 100 (-1) true with mMaxContentWidth := 105 } snapList 98
    ⟨-1, 0⟩ ESnapEdge.SNAP_RIGHT ESnapType.SNAP_PARENT 16 0 1
    (indexed_of_indexedFrom snapList (by decide))
    (by decide)

theorem findSnapEdgeLoop_change (ctrl : LLScrollListCtrl) (mouse_dir : LLCoordGL)
    (threshold : Int) (snap_rect : LLRect) (new_edge_val : Int) :
    ∀ (fuel visited : Nat) (deltas : List Int) (next : Option LLScrollListColumn)
      (res : SnapResult),
      findSnapEdgeLoop ctrl mouse_dir threshold snap_rect new_edge_val deltas fuel visited next
        = some res →
      res.new_edge_val ≠ new_edge_val →
      0 < llabs (res.new_edge_val - snap_rect.mRight)
      ∧ llabs (res.new_edge_val - snap_rect.mRight) ≤ threshold := by
  intro fuel
  induction fuel with
  | zero =>
    intro visited deltas next res hres hne
    cases next with
    | none =>
      simp only [findSnapEdgeLoop, Option.some.injEq] at hres
      rw [← hres] at hne
      exact absurd rfl hne
    | some c => simp [findSnapEdgeLoop] at hres
  | succ fuel ih =>
    intro visited deltas next res hres hne
    cases next with
    | none =>
      simp only [findSnapEdgeLoop, Option.some.injEq] at hres
      rw [← hres] at hne
      exact absurd rfl hne
    | some c =>
      cases hh : c.mHeader with
      | none =>
        simp only [findSnapEdgeLoop, hh] at hres
        exact ih _ _ _ res hres hne
      | some hdr =>
        simp only [findSnapEdgeLoop, hh] at hres
        split at hres
        · rename_i hcond
          simp only [Option.some.injEq] at hres
          rw [← hres]
          simp only [add_sub_cancel_left]
          refine ⟨?_, hcond.1⟩
          have hnz : (hdr.getSnapRect.mRight - c.mMaxContentWidth) - snap_rect.mRight ≠ 0 := by
            intro h0
            rw [h0] at hcond
            simp at hcond
          unfold llabs
          split <;> omega
        · simp only [Option.some.injEq] at hres
          rw [← hres] at hne
          exact absurd rfl hne

/-- C12 (snap to own content width).  With `t = min(threshold, 10)` and
`d = maxContentWidth - snapRect.width`: if `|d| <= t` and the x component of the
drag direction has the same strict sign as `d`, `findSnapEdge` returns with
`new_edge_val` set to `snapRect.left + maxContentWidth`.  Whenever `findSnapEdge`
returns a `new_edge_val` other than the one passed in, it differs from the right
edge of the snap rectangle by a non-zero amount of at most `t`.  In a list whose
columns store their positions as indices the call returns with fuel equal to the
number of columns. -/
theorem findSnapEdge_own_content (self : LLScrollColumnHeader)
    (mColumn : LLScrollListColumn) (ctrl : LLScrollListCtrl) (new_edge_val : Int)
    (mouse_dir : LLCoordGL) (snap_edge : ESnapEdge) (snap_type : ESnapType)
    (threshold padding : Int) :
    (∀ fuel : Nat,
      llabs (mColumn.mMaxContentWidth - self.getSnapRect.getWidth) ≤ llmin threshold 10 →
      mouse_dir.mX * (mColumn.mMaxContentWidth - self.getSnapRect.getWidth) > 0 →
      ∃ res, self.findSnapEdge fuel mColumn ctrl new_edge_val mouse_dir snap_edge snap_type
          threshold padding = some res
        ∧ res.new_edge_val = self.getSnapRect.mLeft + mColumn.mMaxContentWidth)
    ∧ (∀ (fuel : Nat) (res : SnapResult),
      self.findSnapEdge fuel mColumn ctrl new_edge_val mouse_dir snap_edge snap_type
          threshold padding = some res →
      res.new_edge_val ≠ new_edge_val →
      0 < llabs (res.new_edge_val - self.getSnapRect.mRight)
      ∧ llabs (res.new_edge_val - self.getSnapRect.mRight) ≤ llmin threshold 10)
    ∧ (ctrl.indexed →
      ∃ res, self.findSnapEdge ctrl.mColumnsIndexed.length mColumn ctrl new_edge_val
        mouse_dir snap_edge snap_type threshold padding = some res) := by
  refine ⟨?_, ?_, ?_⟩
  · intro fuel h1 h2
    unfold LLScrollColumnHeader.findSnapEdge
    simp only
    rw [if_pos ⟨h1, h2⟩]
    refine ⟨_, rfl, ?_⟩
    simp only [LLRect.getWidth]
    ring
  · intro fuel res hres hne
    unfold LLScrollColumnHeader.findSnapEdge at hres
    simp only at hres
    split at hres
    · rename_i hcond
      simp only [Option.some.injEq] at hres
      rw [← hres]
      simp only [add_sub_cancel_left]
      refine ⟨?_, hcond.1⟩
      have hnz : mColumn.mMaxContentWidth - self.getSnapRect.getWidth ≠ 0 := by
        intro h0
        rw [h0] at hcond
        simp at hcond
      unfold llabs
      split <;> omega
    · exact findSnapEdgeLoop_change _ _ _ _ _ _ _ _ _ res hres hne
  · intro hidx
    unfold LLScrollColumnHeader.findSnapEdge
    simp only
    split
    · exact ⟨_, rfl⟩
    · exact findSnapEdgeLoop_returns ctrl hidx _ _ _ _ _ _ _ _ (fun _ => by omega)

/-- C12 at a concrete header: the snap rectangle spans 0..100, the content is
105 wide, the drag goes to the right with threshold 16, so the edge snaps to
0 + 105. -/
theorem findSnapEdge_own_content_witness :
    ∃ res, (sampleHeader 100 true).findSnapEdge 0
        { sampleColumn "A" 0 100 (-1) true with mMaxContentWidth := 105 } snapList 103
        ⟨1, 0⟩ ESnapEdge.SNAP_RIGHT ESnapType.SNAP_PARENT 16 0 = some res
      ∧ res.new_edge_val = 105 :=
  (findSnapEdge_own_content (sampleHeader 100 true)
    { sampleColumn "A" 0 100 (-1) true with mMaxContentWidth := 105 } snapList 103
    ⟨1, 0⟩ ESnapEdge.SNAP_RIGHT ESnapType.SNAP_PARENT 16 0).1 0 (by decide) (by decide)

theorem findSnapEdgeLoop_next_header (ctrl : LLScrollListCtrl) (hidx : ctrl.indexed)
    (mouse_dir : LLCoordGL) (threshold : Int) (snap_rect : LLRect) (new_edge_val : Int)
    (n : LLScrollListColumn) (hdr : LLScrollColumnHeader) (hn : n.mHeader = some hdr) :
    ∀ (gap p fuel visited : Nat) (deltas : List Int),
      (∀ k : Nat, p ≤ k → k < p + gap →
        ∃ m, ctrl.getColumn (k : Int) = some m ∧ m.mHeader = none) →
      ctrl.getColumn ((p + gap : Nat) : Int) = some n → gap < fuel →
      ∃ res, findSnapEdgeLoop ctrl mouse_dir threshold snap_rect new_edge_val deltas fuel
          visited (ctrl.getColumn (p : Int)) = some res
        ∧ res.new_edge_val
            = (if llabs ((hdr.getSnapRect.mRight - n.mMaxContentWidth) - snap_rect.mRight)
                    ≤ threshold
                  ∧ mouse_dir.mX
                    * ((hdr.getSnapRect.mRight - n.mMaxContentWidth) - snap_rect.mRight) > 0
                then snap_rect.mRight
                  + ((hdr.getSnapRect.mRight - n.mMaxContentWidth) - snap_rect.mRight)
                else new_edge_val) := by
  intro gap
  induction gap with
  | zero =>
    intro p fuel visited deltas _ hcol hfuel
    obtain ⟨f, rfl⟩ : ∃ f, fuel = f + 1 := ⟨fuel - 1, by omega⟩
    simp only [Nat.add_zero] at hcol
    rw [hcol]
    simp only [findSnapEdgeLoop, hn]
    split
    · exact ⟨_, rfl, rfl⟩
    · exact ⟨_, rfl, rfl⟩
  | succ gap ih =>
    intro p fuel visited deltas hbetween hcol hfuel
    obtain ⟨f, rfl⟩ : ∃ f, fuel = f + 1 := ⟨fuel - 1, by omega⟩
    obtain ⟨m, hm, hmh⟩ := hbetween p (by omega) (by omega)
    have hmi := hidx _ m hm
    rw [hm]
    simp only [findSnapEdgeLoop, hmh, hmi]
    have hcast : ((p : Int) + 1) = ((p + 1 : Nat) : Int) := by push_cast; rfl
    rw [hcast]
    exact ih (p + 1) f (visited + 1) deltas
      (fun k h1 h2 => hbetween k (by omega) (by omega))
      (by rw [show p + 1 + gap = p + (gap + 1) by omega]; exact hcol) (by omega)

theorem findSnapEdgeLoop_no_header (ctrl : LLScrollListCtrl) (hidx : ctrl.indexed)
    (mouse_dir : LLCoordGL) (threshold : Int) (snap_rect : LLRect) (new_edge_val : Int) :
    ∀ (gap p fuel visited : Nat) (deltas : List Int),
      (∀ k : Nat, p ≤ k → k < p + gap →
        ∃ m, ctrl.getColumn (k : Int) = some m ∧ m.mHeader = none) →
      ctrl.getColumn ((p + gap : Nat) : Int) = none → gap ≤ fuel →
      ∃ res, findSnapEdgeLoop ctrl mouse_dir threshold snap_rect new_edge_val deltas fuel
          visited (ctrl.getColumn (p : Int)) = some res
        ∧ res.new_edge_val = new_edge_val := by
  intro gap
  induction gap with
  | zero =>
    intro p fuel visited deltas _ hcol _
    simp only [Nat.add_zero] at hcol
    rw [hcol]
    exact ⟨⟨new_edge_val, deltas, visited⟩, by simp [findSnapEdgeLoop], rfl⟩
  | succ gap ih =>
    intro p fuel visited deltas hbetween hcol hfuel
    obtain ⟨f, rfl⟩ : ∃ f, fuel = f + 1 := ⟨fuel - 1, by omega⟩
    obtain ⟨m, hm, hmh⟩ := hbetween p (by omega) (by omega)
    have hmi := hidx _ m hm
    rw [hm]
    simp only [findSnapEdgeLoop, hmh, hmi]
    have hcast : ((p : Int) + 1) = ((p + 1 : Nat) : Int) := by push_cast; rfl
    rw [hcast]
    exact ih (p + 1) f (visited + 1) deltas
      (fun k h1 h2 => hbetween k (by omega) (by omega))
      (by rw [show p + 1 + gap = p + (gap + 1) by omega]; exact hcol) (by omega)

/-- C13 as amended (snap fallback target).  In a list whose columns store their
positions as indices, when the own content width of the column at index `i` does
not produce a snap, `findSnapEdge` evaluates the snap against the nearest column
at a higher index that has a header, whether or not that header is visible or
can resize; only columns without a header are skipped.  The result is the
snapped edge when that header's snap delta is within the threshold and agrees
with the drag direction, and the unmodified `new_edge_val` otherwise, as it is
when the search meets the end of the list (or a null slot) before any header. -/
theorem findSnapEdge_next_header (self : LLScrollColumnHeader)
    (mColumn : LLScrollListColumn) (ctrl : LLScrollListCtrl) (new_edge_val : Int)
    (mouse_dir : LLCoordGL) (snap_edge : ESnapEdge) (snap_type : ESnapType)
    (threshold padding : Int) (i fuel : Nat)
    (hidx : ctrl.indexed) (hi : mColumn.mIndex = (i : Int))
    (hfuel : ctrl.mColumnsIndexed.length ≤ fuel)
    (hown : ¬ (llabs (mColumn.mMaxContentWidth - self.getSnapRect.getWidth)
          ≤ llmin threshold 10
        ∧ mouse_dir.mX * (mColumn.mMaxContentWidth - self.getSnapRect.getWidth) > 0)) :
    (∀ (j : Nat) (n : LLScrollListColumn) (hdr : LLScrollColumnHeader),
      i < j → ctrl.getColumn (j : Int) = some n → n.mHeader = some hdr →
      (∀ k : Nat, i < k → k < j →
        ∃ m, ctrl.getColumn (k : Int) = some m ∧ m.mHeader = none) →
      ∃ res, self.findSnapEdge fuel mColumn ctrl new_edge_val mouse_dir snap_edge snap_type
          threshold padding = some res
        ∧ res.new_edge_val
            = (if llabs ((hdr.getSnapRect.mRight - n.mMaxContentWidth)
                      - self.getSnapRect.mRight) ≤ llmin threshold 10
                  ∧ mouse_dir.mX * ((hdr.getSnapRect.mRight - n.mMaxContentWidth)
                      - self.getSnapRect.mRight) > 0
                then self.getSnapRect.mRight
                  + ((hdr.getSnapRect.mRight - n.mMaxContentWidth)
                      - self.getSnapRect.mRight)
                else new_edge_val))
    ∧ (∀ j : Nat, i < j → ctrl.getColumn (j : Int) = none →
      (∀ k : Nat, i < k → k < j →
        ∃ m, ctrl.getColumn (k : Int) = some m ∧ m.mHeader = none) →
      ∃ res, self.findSnapEdge fuel mColumn ctrl new_edge_val mouse_dir snap_edge snap_type
          threshold padding = some res
        ∧ res.new_edge_val = new_edge_val) := by
  have hstart : mColumn.mIndex + 1 = ((i + 1 : Nat) : Int) := by rw [hi]; push_cast; rfl
  constructor
  · intro j n hdr hij hn hh hbetween
    obtain ⟨hjlt, _⟩ := getColumn_some_lt ctrl j n hn
    unfold LLScrollColumnHeader.findSnapEdge
    simp only
    rw [if_neg hown, hstart]
    exact findSnapEdgeLoop_next_header ctrl hidx mouse_dir (llmin threshold 10)
      self.getSnapRect new_edge_val n hdr hh (j - (i + 1)) (i + 1) fuel 0 _
      (fun k h1 h2 => hbetween k (by omega) (by omega))
      (by rw [show i + 1 + (j - (i + 1)) = j by omega]; exact hn) (by omega)
  · intro j hij hnone hbetween
    have hgap : j - (i + 1) ≤ fuel := by
      by_cases hadj : j = i + 1
      · omega
      · obtain ⟨m, hm, _⟩ := hbetween (j - 1) (by omega) (by omega)
        have := (getColumn_some_lt ctrl (j - 1) m hm).1
        omega
    unfold LLScrollColumnHeader.findSnapEdge
    simp only
    rw [if_neg hown, hstart]
    exact findSnapEdgeLoop_no_header ctrl hidx mouse_dir (llmin threshold 10)
      self.getSnapRect new_edge_val (j - (i + 1)) (i + 1) fuel 0 _
      (fun k h1 h2 => hbetween k (by omega) (by omega))
      (by rw [show i + 1 + (j - (i + 1)) = j by omega]; exact hnone) hgap

/-- C13 as amended, at a concrete list: the content of A is out of snapping
range, the header of B (hidden, not resizable) ends at 200 with content 95 wide,
so a drag to the right snaps the edge of A to 105. -/
theorem findSnapEdge_next_header_witness :
    ∃ res, (sampleHeader 100 true).findSnapEdge 2 (sampleColumn "A" 0 100 (-1) true)
        hiddenNextList 103 ⟨1, 0⟩ ESnapEdge.SNAP_RIGHT ESnapType.SNAP_PARENT 16 0 = some res
      ∧ res.new_edge_val = 105 :=
  (findSnapEdge_next_header (sampleHeader 100 true) (sampleColumn "A" 0 100 (-1) true)
    hiddenNextList 103 ⟨1, 0⟩ ESnapEdge.SNAP_RIGHT ESnapType.SNAP_PARENT 16 0 0 2
    (indexed_of_indexedFrom hiddenNextList (by decide)) rfl (by decide) (by decide)).1 1
    { sampleColumn "B" 1 100 (-1) false with
       mMaxContentWidth := 95
       mHeader := some { sampleHeader 100 false with
         mVisible := false
         mSnapRect := ⟨100, 20, 200, 0⟩ } }
    { sampleHeader 100 false with mVisible := false, mSnapRect := ⟨100, 20, 200, 0⟩ }
    (by decide) rfl rfl (fun k h1 h2 => absurd h2 (by omega))

/-- C13 as stated fails: the only column to the right of A is B, whose header is
hidden and cannot resize, yet `findSnapEdge` uses it as the snap target and moves
the proposed edge from 103 to 105 instead of leaving it unmodified. -/
theorem findSnapEdge_next_header_counterexample :
    (hiddenNextList.getColumn 1).map (fun c => c.headerCanResize) = some false
    ∧ ((hiddenNextList.getColumn 1).bind (fun c => c.mHeader)).map (fun h => h.mVisible)
        = some false
    ∧ hiddenNextList.getColumn 2 = none
    ∧ (sampleHeader 100 true).findSnapEdge 2 (sampleColumn "A" 0 100 (-1) true)
        hiddenNextList 103 ⟨1, 0⟩ ESnapEdge.SNAP_RIGHT ESnapType.SNAP_PARENT 16 0
        = some ⟨105, [-100, 5], 1⟩ := by
  refine ⟨by decide, by decide, by decide, by decide⟩

/-! ## Frame and steps of the redistribution -/

theorem reshapeSibling_unchanged (delta_width listWidth : Int) (m : LLScrollListColumn)
    (rem : Int) (h : ¬ (m.headerCanResize = true ∧ 0 < m.mWidth)) :
    (reshapeSibling delta_width listWidth m rem).column = m := by
  unfold reshapeSibling
  simp only [LLScrollListColumn.getWidth]
  by_cases hres : m.headerCanResize = true
  · have hw : ¬ 0 < m.mWidth := fun hw => h ⟨hres, hw⟩
    have hw2 : ¬ m.mWidth > 0 := hw
    simp only [hres, if_true, hw2, if_false]
    split <;> rfl
  · simp [hres]

/-- C15 (frame of the redistribution).  For every list state and every reshape
of the header of the column at position `i`, the call returns and every column
slot other than that of the dragged column is left exactly as it was (width and
relative width included) unless it lies at an index strictly above the stored
index of the dragged column and holds a column whose header is present and can
resize and whose width was positive before the call. -/
theorem handleReshape_frame (ctrl : LLScrollListCtrl) (i : Nat)
    (new_rect : LLRect) (by_user : Bool) (c : LLScrollListColumn)
    (h : LLScrollColumnHeader)
    (hcol : ctrl.getColumn (i : Int) = some c) (hhdr : c.mHeader = some h) :
    ∃ ctrl1, handleReshape ctrl i new_rect by_user = some ctrl1
      ∧ ∀ k : Nat, k ≠ i →
          ¬ (c.mIndex < (k : Int)
              ∧ ∃ m, ctrl.getColumn (k : Int) = some m ∧ m.headerCanResize = true
                  ∧ 0 < m.mWidth) →
          ctrl1.getColumn (k : Int) = ctrl.getColumn (k : Int) := by
  by_cases hz : new_rect.getWidth - h.getRect.getWidth = 0
  · exact ⟨ctrl, handleReshape_zero ctrl i new_rect by_user c h hcol hhdr hz,
      fun k _ _ => rfl⟩
  · obtain ⟨ctrl1, c1, h1, _, h3, _, _⟩ :=
      handleReshape_columns ctrl i new_rect by_user c h hcol hhdr hz
    refine ⟨ctrl1, h1, ?_⟩
    intro k hki hnot
    rw [getColumn_natCast, getColumn_natCast, h3, List.getElem?_set_ne (by omega)]
    rcases afterSiblings_getElem? ctrl (c.mIndex + 1)
        (new_rect.getWidth - h.getRect.getWidth) k with h6 | h6
    · rw [h6]
    · obtain ⟨m, rem1, hle, hm, h7, _⟩ := h6
      have hun : ¬ (m.headerCanResize = true ∧ 0 < m.mWidth) := by
        rintro ⟨hres, hw⟩
        exact hnot ⟨by omega, m, by rw [getColumn_natCast, hm]; rfl, hres, hw⟩
      rw [h7, hm, reshapeSibling_unchanged _ _ _ _ hun]

/-- C15 at the scenario list: shrinking A leaves every slot other than A and
the resizable B of positive width as it was. -/
theorem handleReshape_frame_witness :
    ∃ ctrl1, handleReshape scenarioList 0 ⟨0, 20, 150, 0⟩ true = some ctrl1
      ∧ ∀ k : Nat, k ≠ 0 →
          ¬ ((0 : Int) < (k : Int)
              ∧ ∃ m, scenarioList.getColumn (k : Int) = some m ∧ m.headerCanResize = true
                  ∧ 0 < m.mWidth) →
          ctrl1.getColumn (k : Int) = scenarioList.getColumn (k : Int) :=
  handleReshape_frame scenarioList 0 ⟨0, 20, 150, 0⟩ true
    (sampleColumn "A" 0 200 (2 / 5) true) (sampleHeader 200 true) rfl rfl

theorem reshapeWalk_grow_getElem? (delta_width listWidth : Int) (hd : 0 < delta_width) :
    ∀ (l : List (Option LLScrollListColumn)) (rem : Int) (k : Nat)
      (m : LLScrollListColumn),
      rem < 0 → l[k]? = some (some m) →
      (rem + shrinkBufferSum (l.take k) < 0 →
        (reshapeWalk delta_width listWidth l rem).1[k]?
          = some (some (reshapeSibling delta_width listWidth m
              (rem + shrinkBufferSum (l.take k))).column))
      ∧ (0 ≤ rem + shrinkBufferSum (l.take k) →
        (reshapeWalk delta_width listWidth l rem).1[k]? = some (some m)) := by
  intro l
  induction l with
  | nil => intro rem k m _ hk; simp at hk
  | cons a rest ih =>
    intro rem k m hrem hk
    cases k with
    | zero =>
      simp at hk
      subst hk
      have h0 : shrinkBufferSum (List.take 0 (some m :: rest)) = 0 := by
        simp [shrinkBufferSum]
      rw [h0]
      constructor
      · intro _
        simp only [add_zero, reshapeWalk]
        split <;> simp
      · intro hge
        omega
    | succ k =>
      have hk' : rest[k]? = some (some m) := by simpa using hk
      have htake : shrinkBufferSum (List.take (k + 1) (a :: rest))
          = shrinkBuffer a + shrinkBufferSum (List.take k rest) := by
        rw [List.take_succ_cons, shrinkBufferSum_cons]
      have hnn := shrinkBufferSum_nonneg (List.take k rest)
      rw [htake]
      cases a with
      | none =>
        have hb0 : shrinkBuffer none = 0 := rfl
        rw [hb0]
        have := ih rem k m hrem hk'
        simp only [zero_add, reshapeWalk, List.getElem?_cons_succ]
        exact this
      | some c0 =>
        have hs := reshapeSibling_grow_remaining delta_width listWidth c0 rem (by omega)
        simp only [reshapeWalk]
        split
        · rename_i hdone
          have hge := hs.2.1 hdone
          simp only [List.getElem?_cons_succ]
          exact ⟨fun hlt => by omega, fun _ => hk'⟩
        · rename_i hnd
          have hnd' : (reshapeSibling delta_width listWidth c0 rem).done = false := by
            simpa using hnd
          have hrem' : (reshapeSibling delta_width listWidth c0 rem).remaining_width < 0 := by
            rw [hs.1]
            by_cases hres : c0.headerCanResize = true
            · exact hs.2.2 hnd' hres
            · have hb0 : shrinkBuffer (some c0) = 0 := by simp [shrinkBuffer, hres]
              omega
          have := ih (reshapeSibling delta_width listWidth c0 rem).remaining_width k m hrem' hk'
          rw [hs.1, add_assoc] at this
          simp only [List.getElem?_cons_succ, hs.1]
          exact this

theorem afterSiblings_right (ctrl : LLScrollListCtrl) (i k : Nat) (delta_width : Int)
    (hilt : i < ctrl.mColumnsIndexed.length) (hik : i < k) :
    (afterSiblings ctrl ((i : Int) + 1) delta_width)[k]?
      = (reshapeWalk delta_width ctrl.mItemListRectWidth
          (ctrl.mColumnsIndexed.drop (i + 1)) (-delta_width)).1[k - (i + 1)]? := by
  have hs : ((i : Int) + 1).toNat = i + 1 := by omega
  unfold afterSiblings
  rw [hs, List.getElem?_append_right (by rw [List.length_take]; omega), List.length_take]
  congr 1
  omega

/-- C16 (per-sibling grow step).  The header of the column at position `i`
(stored index equal to position, rectangle of width `R`) is reshaped to width
`R + X` with `X > 0`.  Take a column at position `k > i` whose header is present
and can resize, and let `a` be `-X` plus the sum of `max(0, w - 20)` over the
resizable columns strictly between `i` and `k`.  If `a < 0` (the walk has not
stopped before `k`) the column is visited: with positive width `w` it ends with
width `w - min(w - 20, X) = max(20, w - X)`, the amount being taken against the
full `X`, and with non-positive width it keeps its width.  If `a >= 0` (the walk
stopped at an earlier sibling) the column is unchanged. -/
theorem handleReshape_grow_steps (ctrl : LLScrollListCtrl) (i : Nat)
    (new_rect : LLRect) (by_user : Bool) (c : LLScrollListColumn)
    (h : LLScrollColumnHeader) (X : Int)
    (hcol : ctrl.getColumn (i : Int) = some c) (hidx : c.mIndex = (i : Int))
    (hhdr : c.mHeader = some h)
    (hX : 0 < X) (hrect : new_rect.getWidth = h.getRect.getWidth + X) :
    ∃ ctrl1, handleReshape ctrl i new_rect by_user = some ctrl1
      ∧ ∀ (k : Nat) (m : LLScrollListColumn), i < k →
          ctrl.getColumn (k : Int) = some m → m.headerCanResize = true →
          (-X + shrinkBufferSum ((ctrl.mColumnsIndexed.drop (i + 1)).take (k - (i + 1))) < 0 →
            ∃ m1, ctrl1.getColumn (k : Int) = some m1
              ∧ (0 < m.mWidth →
                  m1.mWidth = m.mWidth - min (m.mWidth - MIN_COLUMN_WIDTH) X
                  ∧ m1.mWidth = max MIN_COLUMN_WIDTH (m.mWidth - X))
              ∧ (m.mWidth ≤ 0 → m1.mWidth = m.mWidth))
          ∧ (0 ≤ -X + shrinkBufferSum
                ((ctrl.mColumnsIndexed.drop (i + 1)).take (k - (i + 1))) →
            ctrl1.getColumn (k : Int) = some m) := by
  have hδ : new_rect.getWidth - h.getRect.getWidth = X := by omega
  obtain ⟨ctrl1, h1, h2, _, _⟩ :=
    handleReshape_columns_indexed ctrl i new_rect by_user c h hcol hidx hhdr
      (by rw [hδ]; omega)
  obtain ⟨hilt, _⟩ := getColumn_some_lt ctrl i c hcol
  rw [hδ] at h2
  refine ⟨ctrl1, h1, ?_⟩
  intro k m hik hm hres
  obtain ⟨hklt, hck⟩ := getColumn_some_lt ctrl k m hm
  have hkk : i + 1 + (k - (i + 1)) = k := by omega
  have hwalk := reshapeWalk_grow_getElem? X ctrl.mItemListRectWidth hX
    (ctrl.mColumnsIndexed.drop (i + 1)) (-X) (k - (i + 1)) m (by omega)
    (by rw [List.getElem?_drop, hkk]; exact hck)
  have hget : ctrl1.getColumn (k : Int)
      = ((reshapeWalk X ctrl.mItemListRectWidth
          (ctrl.mColumnsIndexed.drop (i + 1)) (-X)).1[k - (i + 1)]?).join := by
    rw [getColumn_natCast, h2, List.getElem?_set_ne (by omega),
      afterSiblings_right ctrl i k X hilt hik]
  constructor
  · intro hlt
    rw [hget, hwalk.1 hlt]
    refine ⟨_, rfl, ?_, ?_⟩
    · intro hw
      rw [reshapeSibling_grow_width _ _ _ _ (by omega), if_pos ⟨hres, hw⟩]
      unfold llmin MIN_COLUMN_WIDTH
      constructor
      · rw [min_def]
        split <;> split <;> omega
      · rw [max_def]
        split <;> split <;> omega
    · intro hw
      rw [reshapeSibling_grow_width _ _ _ _ (by omega), if_neg (by omega)]
  · intro hge
    rw [hget, hwalk.2 hge]
    rfl

/-- C16 at three resizable columns of width 100: A grown by 100 takes 80 from B
(accumulated value -20, the walk goes on) and 80 from C, each against the full
100. -/
theorem handleReshape_grow_steps_witness :
    ∃ ctrl1, handleReshape evenList 0 ⟨0, 20, 200, 0⟩ true = some ctrl1
      ∧ ∀ (k : Nat) (m : LLScrollListColumn), 0 < k →
          evenList.getColumn (k : Int) = some m → m.headerCanResize = true →
          (-100 + shrinkBufferSum ((evenList.mColumnsIndexed.drop (0 + 1)).take (k - (0 + 1))) < 0 →
            ∃ m1, ctrl1.getColumn (k : Int) = some m1
              ∧ (0 < m.mWidth →
                  m1.mWidth = m.mWidth - min (m.mWidth - MIN_COLUMN_WIDTH) 100
                  ∧ m1.mWidth = max MIN_COLUMN_WIDTH (m.mWidth - 100))
              ∧ (m.mWidth ≤ 0 → m1.mWidth = m.mWidth))
          ∧ (0 ≤ -100 + shrinkBufferSum
                ((evenList.mColumnsIndexed.drop (0 + 1)).take (k - (0 + 1))) →
            ctrl1.getColumn (k : Int) = some m) :=
  handleReshape_grow_steps evenList 0 ⟨0, 20, 200, 0⟩ true
    (sampleColumn "A" 0 100 (-1) true) (sampleHeader 100 true) 100 rfl rfl rfl
    (by decide) (by decide)

/-- The widths after growing A by 100 over three resizable columns of width 100:
A gains 100 while B and C give up 80 each. -/
theorem handleReshape_grow_steps_evaluation :
    (handleReshape evenList 0 ⟨0, 20, 200, 0⟩ true).map
        (fun s => s.mColumnsIndexed.map slotWidth) = some [200, 20, 20] := by
  decide!

/-! ## The change of the total width -/

end SingularityViewer
